import Mathlib

/-!
# Verification of the canvas command-execution pipeline

A shallow embedding, over the rationals, of the geometry, normalization,
placement, template and command-execution code of the drawing-canvas server,
together with a model of the oracle-response sanitizer / JSON extractor.
JavaScript numbers are modelled as rationals (`ℚ`); a numeric field that may
be absent (or hold a non-number, which every guard in the source detects with
`typeof x === 'number'`) is modelled as `Option ℚ`.
-/

namespace Canvas

/-- Axis-aligned bounding box, `{minX,minY,maxX,maxY}` as in the source. -/
structure BBox where
  minX : ℚ
  minY : ℚ
  maxX : ℚ
  maxY : ℚ
deriving DecidableEq

/-- A shape record as flowing through the pipeline (`Partial<InsertShape>`):
every field may be absent.  `stype` is the `type` tag. -/
structure ShapeData where
  stype : Option String
  x : Option ℚ
  y : Option ℚ
  width : Option ℚ
  height : Option ℚ
  radius : Option ℚ
  x2 : Option ℚ
  y2 : Option ℚ
  color : Option String
  strokeWidth : Option ℚ
  style : Option String
deriving DecidableEq

/-- A shape with no fields set; concrete shapes are built from it. -/
def blank : ShapeData :=
  ⟨none, none, none, none, none, none, none, none, none, none, none⟩

/-- Build a circle record (used for template literals). -/
def mkCircle (x y radius : ℚ) (color : String) (strokeWidth : ℚ) : ShapeData :=
  { blank with stype := some "circle", x := some x, y := some y,
               radius := some radius, color := some color,
               strokeWidth := some strokeWidth }

/-- Build a rectangle record. -/
def mkRect (x y width height : ℚ) (color : String) (strokeWidth : ℚ) : ShapeData :=
  { blank with stype := some "rectangle", x := some x, y := some y,
               width := some width, height := some height, color := some color,
               strokeWidth := some strokeWidth }

/-- Build a triangle record. -/
def mkTriangle (x y width height : ℚ) (color : String) (strokeWidth : ℚ) : ShapeData :=
  { blank with stype := some "triangle", x := some x, y := some y,
               width := some width, height := some height, color := some color,
               strokeWidth := some strokeWidth }

/-- Build a line record, optionally curved. -/
def mkLine (x y x2 y2 : ℚ) (color : String) (strokeWidth : ℚ)
    (style : Option String) : ShapeData :=
  { blank with stype := some "line", x := some x, y := some y,
               x2 := some x2, y2 := some y2, color := some color,
               strokeWidth := some strokeWidth, style := style }

/-- `getShapeBounds`: per-variant bounding box, `null` (`none`) when a
required numeric field is missing. -/
def getShapeBounds (s : ShapeData) : Option BBox :=
  match s.stype with
  | none => none
  | some t =>
    if t = "circle" ∨ t = "star" then
      match s.x, s.y, s.radius with
      | some x, some y, some r => some ⟨x - r, y - r, x + r, y + r⟩
      | _, _, _ => none
    else if t = "rectangle" ∨ t = "triangle" then
      match s.x, s.y, s.width, s.height with
      | some x, some y, some w, some h => some ⟨x, y, x + w, y + h⟩
      | _, _, _, _ => none
    else if t = "line" then
      match s.x, s.y, s.x2, s.y2 with
      | some x, some y, some x2, some y2 =>
          some ⟨min x x2, min y y2, max x x2, max y y2⟩
      | _, _, _, _ => none
    else none

/-- One step of the bounds union fold of `computeBounds`. -/
def unionStep (acc : Option BBox) (s : ShapeData) : Option BBox :=
  match getShapeBounds s with
  | none => acc
  | some b =>
    match acc with
    | none => some b
    | some a => some ⟨min a.minX b.minX, min a.minY b.minY,
                      max a.maxX b.maxX, max a.maxY b.maxY⟩

/-- `computeBounds`: union of the member boxes, ignoring members without a
box; `null` when no member yields one (the `isFinite` test in the source
fails exactly when the `±Infinity` seeds were never improved). -/
def computeBounds (shapes : List ShapeData) : Option BBox :=
  shapes.foldl unionStep none

/-- `copy.color || '#000000'` — JavaScript truthiness: an absent or empty
string falls back to the default. -/
def colorOrDefault (c : Option String) : String :=
  match c with
  | some s => if s = "" then "#000000" else s
  | none => "#000000"

/-- `copy.strokeWidth || 2` — `0` is falsy in JavaScript. -/
def strokeWidthOrDefault (w : Option ℚ) : ℚ :=
  match w with
  | some v => if v = 0 then 2 else v
  | none => 2

/-- Scale a size field: `copy.f = Math.max(1, copy.f * scale)` when present. -/
def scaleSize (scale : ℚ) : Option ℚ → Option ℚ
  | some v => some (max 1 (v * scale))
  | none => none

/-- Move `x`/`y` when both are present:
`copy.x = (copy.x - cx) * scale + tx` etc. -/
def moveXY (cx cy scale tx ty : ℚ) (s : ShapeData) : ShapeData :=
  match s.x, s.y with
  | some x, some y =>
      { s with x := some ((x - cx) * scale + tx),
               y := some ((y - cy) * scale + ty) }
  | _, _ => s

/-- Options record of `normalizeShapesToCanvas`. -/
structure NormOpts where
  width : ℚ
  height : ℚ
  targetW : ℚ
  targetH : ℚ
  centerX : ℚ
  centerY : ℚ
deriving DecidableEq

/-- The per-shape body of the `shapes.map` inside `normalizeShapesToCanvas`:
back-fill `color`/`strokeWidth`, then transform per variant. -/
def normalizeShape (cx cy scale tx ty : ℚ) (s : ShapeData) : ShapeData :=
  let c0 := { s with color := some (colorOrDefault s.color),
                     strokeWidth := some (strokeWidthOrDefault s.strokeWidth) }
  match c0.stype with
  | none => c0
  | some t =>
    if t = "circle" ∨ t = "star" then
      let c1 := moveXY cx cy scale tx ty c0
      { c1 with radius := scaleSize scale c1.radius }
    else if t = "rectangle" ∨ t = "triangle" then
      let c1 := moveXY cx cy scale tx ty c0
      { c1 with width := scaleSize scale c1.width,
                height := scaleSize scale c1.height }
    else if t = "line" then
      let c1 := moveXY cx cy scale tx ty c0
      match c1.x2, c1.y2 with
      | some x2, some y2 =>
          { c1 with x2 := some ((x2 - cx) * scale + tx),
                    y2 := some ((y2 - cy) * scale + ty) }
      | _, _ => c1
    else c0

/-- `normalizeShapesToCanvas`: rescale and recenter a group.  The bounding
width/height are clamped below at 1 (`Math.max(1, ...)`) before the scale
factor and center are computed. -/
def normalizeShapesToCanvas (shapes : List ShapeData) (opts : NormOpts) :
    List ShapeData :=
  match computeBounds shapes with
  | none => shapes
  | some bounds =>
    let bw := max 1 (bounds.maxX - bounds.minX)
    let bh := max 1 (bounds.maxY - bounds.minY)
    let scale := min (opts.targetW / bw) (opts.targetH / bh)
    let cx := bounds.minX + bw / 2
    let cy := bounds.minY + bh / 2
    shapes.map (normalizeShape cx cy scale opts.centerX opts.centerY)

/-- Written from the specification's words for comparison with
`normalizeShapesToCanvas` (claim C6): scale factor
`min(target.w/boundingWidth, target.h/boundingHeight)` over the raw
bounding dimensions, and the true box center — without the source's
`Math.max(1, ...)` clamping of the bounding width/height. -/
def specNormalizeShapesToCanvas (shapes : List ShapeData) (opts : NormOpts) :
    List ShapeData :=
  match computeBounds shapes with
  | none => shapes
  | some bounds =>
    let bw := bounds.maxX - bounds.minX
    let bh := bounds.maxY - bounds.minY
    let scale := min (opts.targetW / bw) (opts.targetH / bh)
    let cx := (bounds.minX + bounds.maxX) / 2
    let cy := (bounds.minY + bounds.maxY) / 2
    shapes.map (normalizeShape cx cy scale opts.centerX opts.centerY)

/-- Shift one coordinate field when present (`if typeof c.x === 'number'`). -/
def shiftOpt (d : ℚ) : Option ℚ → Option ℚ
  | some v => some (v + d)
  | none => none

/-- The per-shape body of `translateComposite`. -/
def translateShape (dx dy : ℚ) (s : ShapeData) : ShapeData :=
  { s with x := shiftOpt dx s.x, y := shiftOpt dy s.y,
           x2 := shiftOpt dx s.x2, y2 := shiftOpt dy s.y2 }

/-- `translateComposite`: shift every present coordinate of every shape. -/
def translateComposite (shapes : List ShapeData) (dx dy : ℚ) : List ShapeData :=
  shapes.map (translateShape dx dy)

/-- `rectsOverlap` with its fixed default margin of 10: two boxes separated
by more than the margin on some axis do not overlap; anything closer does. -/
def rectsOverlap (a b : BBox) (margin : ℚ) : Bool :=
  !(decide (a.maxX + margin < b.minX) || decide (a.minX - margin > b.maxX) ||
    decide (a.maxY + margin < b.minY) || decide (a.minY - margin > b.maxY))

/-- `anyOverlap`: does any member of the composite (that has a box) overlap
any existing shape (that has a box)?  Margin fixed at the default 10. -/
def anyOverlap (composite existing : List ShapeData) : Bool :=
  composite.any fun s =>
    match getShapeBounds s with
    | none => false
    | some sb =>
      existing.any fun e =>
        match getShapeBounds e with
        | none => false
        | some eb => rectsOverlap sb eb 10

/-- The candidate-center grid: `r` outer 1..4, `c` inner 1..4, point
`(c*W/(cols+1), r*H/(rows+1))` with `cols = rows = 4`. -/
def candidates (cw ch : ℚ) : List (ℚ × ℚ) :=
  (List.range 4).flatMap fun r =>
    (List.range 4).map fun c =>
      (((c : ℚ) + 1) * cw / 5, ((r : ℚ) + 1) * ch / 5)

/-- The candidate loop of `placeCompositeWithoutOverlap`: translate the
group so its center lands on each candidate in turn; first collision-free
candidate wins, otherwise the group is returned as given. -/
def tryCandidates (shapes existing : List ShapeData) (cx cy : ℚ) :
    List (ℚ × ℚ) → List ShapeData
  | [] => shapes
  | (px, py) :: rest =>
    let moved := translateComposite shapes (px - cx) (py - cy)
    if anyOverlap moved existing then tryCandidates shapes existing cx cy rest
    else moved

/-- `placeCompositeWithoutOverlap` (identical to the exported `placeShape`
of the canvas service, which reads `existing` from storage): 16-candidate
first-fit scan; on total failure the group is returned untranslated. -/
def placeCompositeWithoutOverlap (shapes existing : List ShapeData)
    (cw ch : ℚ) : List ShapeData :=
  match computeBounds shapes with
  | none => shapes
  | some bounds =>
    let cx := bounds.minX + (bounds.maxX - bounds.minX) / 2
    let cy := bounds.minY + (bounds.maxY - bounds.minY) / 2
    tryCandidates shapes existing cx cy (candidates cw ch)

/-- `placeShape` of the canvas service: the same algorithm, with the current
canvas contents passed in place of the storage read. -/
def placeShape (shapes existing : List ShapeData) (cw ch : ℚ) :
    List ShapeData :=
  placeCompositeWithoutOverlap shapes existing cw ch

/-- The `while (true)` eviction loop of `placeOrEvict`: delete the head
(oldest) of the remaining canvas, re-run the full scan against the rest,
stop as soon as the placement is collision-free or the canvas is exhausted.
Returns the placed group and the surviving canvas contents. -/
def evictLoop (shapes : List ShapeData) (cw ch : ℚ) :
    List ShapeData → List ShapeData × List ShapeData
  | [] => (shapes, [])
  | _ :: rest =>
    let placed := placeCompositeWithoutOverlap shapes rest cw ch
    if anyOverlap placed rest then evictLoop shapes cw ch rest
    else (placed, rest)

/-- `placeOrEvict` (eviction variant): try the full canvas first; if the
best candidate still overlaps, evict oldest-first until it fits. -/
def placeOrEvict (shapes existing : List ShapeData) (cw ch : ℚ) :
    List ShapeData × List ShapeData :=
  let placed := placeCompositeWithoutOverlap shapes existing cw ch
  if anyOverlap placed existing then evictLoop shapes cw ch existing
  else (placed, existing)

/-! ## Command text handling -/

/-- Substring containment, `haystack.includes(needle)` of JavaScript:
some split of the haystack exposes the needle as a prefix. -/
def containsStr : List Char → List Char → Bool
  | hay, needle =>
    if needle.isPrefixOf hay then true
    else
      match hay with
      | [] => false
      | _ :: rest => containsStr rest needle

/-- `toLowerCase` (the commands in scope are ASCII). -/
def toLowerStr (l : List Char) : List Char := l.map Char.toLower

/-- JavaScript whitespace for `trim` (the characters occurring here). -/
def isWsChar (c : Char) : Bool :=
  c = ' ' ∨ c = '\n' ∨ c = '\t' ∨ c = '\r'

/-- `s.trim()`: strip whitespace from both ends. -/
def trimStr (l : List Char) : List Char :=
  ((l.dropWhile isWsChar).reverse.dropWhile isWsChar).reverse

/-- A `\w` character of the JavaScript regex engine. -/
def isWordChar (c : Char) : Bool := c.isAlphanum || c = Char.ofNat 95

/-- Does `"delete"` start here with a word boundary after it? -/
def deleteAtHead (l : List Char) : Bool :=
  ("delete".data).isPrefixOf l &&
    (match l.drop 6 with
     | [] => true
     | d :: _ => !isWordChar d)

/-- Scan for `/\bdelete\b/`, carrying the previous character for the
leading word boundary. -/
def wordDeleteGo (prev : Option Char) (l : List Char) : Bool :=
  match l with
  | [] => false
  | c :: rest =>
    ((match prev with
      | none => true
      | some p => !isWordChar p) && deleteAtHead l) || wordDeleteGo (some c) rest

/-- `/\bdelete\b/.test(lc)`. -/
def wordDelete (l : List Char) : Bool := wordDeleteGo none l

/-- The executor's guard predicate on the lowercased original command:
`lc.includes('clear') || lc.includes('delete all') || /\bdelete\b/.test(lc)`. -/
def explicitClear (lc : List Char) : Bool :=
  containsStr lc ("clear".data) || containsStr lc ("delete all".data) ||
    wordDelete lc

/-! ## Template matcher -/

/-- Result record of `maybeApplyTemplate`. -/
structure TemplateResult where
  applied : Bool
  templateName : Option String
  shapes : List ShapeData
deriving DecidableEq

/-- The smiley template: face, two eyes, curved mouth. -/
def smileyTemplate : List ShapeData :=
  [mkCircle 300 250 80 "#FFC107" 4,
   mkCircle 270 220 8 "#000000" 2,
   mkCircle 330 220 8 "#000000" 2,
   mkLine 250 280 350 280 "#000000" 3 (some "curve")]

/-- The sad-face template. -/
def sadTemplate : List ShapeData :=
  [mkCircle 300 250 80 "#FFFFCC" 2,
   mkCircle 270 220 8 "#000000" 2,
   mkCircle 330 220 8 "#000000" 2,
   mkLine 250 320 350 320 "#000000" 3 (some "curve")]

/-- Stand-in for the floating-point value `Math.cos(π/4) = Math.sin(π/4)`
used by the sun template's ray endpoints.  The exact value is irrational
(`√2/2`); no claim inspects these coordinates, so a close rational is used. -/
def sqrtHalfApprox : ℚ := 408 / 577

/-- One sun ray: a line from radius `R+5 = 85` to `R+rayLen = 120` along the
direction `(c, sn)` from the center `(300, 250)`. -/
def sunRay (c sn : ℚ) : ShapeData :=
  mkLine (300 + 85 * c) (250 + 85 * sn) (300 + 120 * c) (250 + 120 * sn)
    "#FFA500" 3 none

/-- The sun template: circle plus 8 rays starting north, stepping 45°. -/
def sunTemplate : List ShapeData :=
  mkCircle 300 250 80 "#FFFF00" 2 ::
    [sunRay 0 (-1), sunRay sqrtHalfApprox (-sqrtHalfApprox), sunRay 1 0,
     sunRay sqrtHalfApprox sqrtHalfApprox, sunRay 0 1,
     sunRay (-sqrtHalfApprox) sqrtHalfApprox, sunRay (-1) 0,
     sunRay (-sqrtHalfApprox) (-sqrtHalfApprox)]

/-- The tree template: trunk plus three stacked triangles. -/
def treeTemplate : List ShapeData :=
  [mkRect 290 290 20 80 "#8B4513" 2,
   mkTriangle 240 200 120 90 "#228B22" 2,
   mkTriangle 255 160 90 70 "#2E8B57" 2,
   mkTriangle 270 130 60 50 "#32CD32" 2]

/-- The house template (baseX 300, baseY 280, w 160, h 120, roofH 70). -/
def houseTemplate : List ShapeData :=
  [mkRect 220 160 160 120 "#8B4513" 3,
   mkTriangle 220 90 160 70 "#A0522D" 3,
   mkRect 285 230 30 50 "#654321" 2,
   mkRect 240 190 35 35 "#87CEEB" 2]

/-- The apple template. -/
def appleTemplate : List ShapeData :=
  [mkCircle 300 260 40 "#FF0000" 2,
   mkLine 300 220 300 200 "#654321" 3 none,
   mkCircle 290 245 6 "#FFFFFF" 2,
   mkCircle 310 245 6 "#FFFFFF" 2]

/-- `maybeApplyTemplate`: ordered keyword scan over the lowercased command;
first match wins and replaces the proposed shapes entirely.  (Both
non-matching exits of the source return `applied:false` with the shapes
passed through, so they collapse to one branch here.) -/
def maybeApplyTemplate (command : List Char) (shapes : List ShapeData) :
    TemplateResult :=
  if containsStr command ("smile".data) || containsStr command ("smiley".data)
  then ⟨true, some "smiley", smileyTemplate⟩
  else if containsStr command ("sad face".data) then ⟨true, some "sad", sadTemplate⟩
  else if containsStr command ("sun".data) then ⟨true, some "sun", sunTemplate⟩
  else if containsStr command ("tree".data) then ⟨true, some "tree", treeTemplate⟩
  else if containsStr command ("house".data) then ⟨true, some "house", houseTemplate⟩
  else if containsStr command ("apple".data) then ⟨true, some "apple", appleTemplate⟩
  else ⟨false, none, shapes⟩

/-! ## Per-shape validation and the command executors -/

/-- The five-member `type` enum. -/
def shapeTypes : List String := ["rectangle", "circle", "line", "triangle", "star"]

/-- The per-shape validation of the draw loop (eviction-variant executor):
`type` truthy and in the enum, `x`/`y` numbers, then the variant's own
required numeric fields. -/
def validShape (s : ShapeData) : Bool :=
  match s.stype with
  | none => false
  | some t =>
    if t = "" || !(shapeTypes.contains t) then false
    else if s.x.isNone || s.y.isNone then false
    else if t = "rectangle" then s.width.isSome && s.height.isSome
    else if t = "circle" then s.radius.isSome
    else if t = "triangle" then s.width.isSome && s.height.isSome
    else if t = "star" then s.radius.isSome
    else if t = "line" then s.x2.isSome && s.y2.isSome
    else true

/-- The coercion step before persistence: back-fill `color`/`strokeWidth`. -/
def addDefaults (s : ShapeData) : ShapeData :=
  { s with color := some (colorOrDefault s.color),
           strokeWidth := some (strokeWidthOrDefault s.strokeWidth) }

/-- The `for` loop over the placed batch (eviction variant): validate each
shape independently, `continue` past failures, persist the rest in order. -/
def createLoop : List ShapeData → List ShapeData
  | [] => []
  | s :: rest =>
    if validShape s then addDefaults s :: createLoop rest else createLoop rest

/-- The per-shape validation of the no-eviction executor: explicit enum
check, then the Zod insert schema, which requires `type`, `x`, `y` (the
size fields are nullable columns and stay optional). -/
def validShapeNE (s : ShapeData) : Bool :=
  match s.stype with
  | none => false
  | some t =>
    !(t = "") && shapeTypes.contains t && s.x.isSome && s.y.isSome

/-- The draw loop of the no-eviction executor. -/
def createLoopNE : List ShapeData → List ShapeData
  | [] => []
  | s :: rest =>
    if validShapeNE s then addDefaults s :: createLoopNE rest else createLoopNE rest

/-- The fixed normalization options of the draw action:
reference canvas 800×600, target box 300×300, temporary center (400,300). -/
def canvasOpts : NormOpts := ⟨800, 600, 300, 300, 400, 300⟩

/-- Stage 1 of the draw action: apply a template when the lowercased
original command matches one. -/
def applyTemplateStage (oracleShapes : List ShapeData)
    (orig : Option (List Char)) : List ShapeData :=
  match orig with
  | some cmd =>
    let t := maybeApplyTemplate (toLowerStr cmd) oracleShapes
    if t.applied then t.shapes else oracleShapes
  | none => oracleShapes

/-- The draw action of the eviction-variant executor: template →
normalize → `placeOrEvict` → per-shape validate/persist.  Returns the
shapes passed to `createShape` and the surviving prior canvas. -/
def drawPipelineV1 (oracleShapes : List ShapeData) (orig : Option (List Char))
    (existing : List ShapeData) : List ShapeData × List ShapeData :=
  let working := normalizeShapesToCanvas (applyTemplateStage oracleShapes orig)
    canvasOpts
  let pr := placeOrEvict working existing 800 600
  (createLoop pr.1, pr.2)

/-- The draw action of the no-eviction executor: template → normalize →
`placeShape` → validate/persist.  Returns the created shapes. -/
def drawPipelineNE (oracleShapes : List ShapeData) (orig : Option (List Char))
    (existing : List ShapeData) : List ShapeData :=
  let working := normalizeShapesToCanvas (applyTemplateStage oracleShapes orig)
    canvasOpts
  createLoopNE (placeShape working existing 800 600)

/-- The executor's view of an interpretation: compound action string plus
the (possibly missing) shapes array. -/
structure CanvasInterp where
  action : List Char
  shapes : Option (List ShapeData)

/-- The sub-action list the executor runs: split the compound action on
`'|'` and, unless the user's own text explicitly requested clearing,
drop every sub-action whose trimmed text is `"clear"`. -/
def effectiveActions (actionStr : List Char) (orig : Option (List Char)) :
    List (List Char) :=
  let actions := List.splitOn '|' actionStr
  match orig with
  | some cmd =>
    if explicitClear (toLowerStr cmd) then actions
    else actions.filter fun a => !(trimStr a == "clear".data)
  | none => actions

/-- One sub-action of the eviction-variant executor, as a canvas update. -/
def execActionV1 (shapes? : Option (List ShapeData)) (orig : Option (List Char))
    (canvas : List ShapeData) (a : List Char) : List ShapeData :=
  let t := trimStr a
  if t == "draw".data then
    match shapes? with
    | some ss =>
      let pr := drawPipelineV1 ss orig canvas
      pr.2 ++ pr.1
    | none => canvas
  else if t == "clear".data then []
  else if t == "delete".data then []
  else canvas

/-- The eviction-variant `executeCommand` for canvas: run the effective
sub-actions in order over the canvas contents (insertion-ordered; created
shapes are appended, evicted ones deleted). -/
def executeCommandV1 (interp : CanvasInterp) (orig : Option (List Char))
    (canvas : List ShapeData) : List ShapeData :=
  (effectiveActions interp.action orig).foldl (execActionV1 interp.shapes orig)
    canvas

/-- One sub-action of the no-eviction executor. -/
def execActionNE (shapes? : Option (List ShapeData)) (orig : Option (List Char))
    (canvas : List ShapeData) (a : List Char) : List ShapeData :=
  let t := trimStr a
  if t == "draw".data then
    match shapes? with
    | some ss => canvas ++ drawPipelineNE ss orig canvas
    | none => canvas
  else if t == "clear".data then []
  else if t == "delete".data then []
  else canvas

/-- The no-eviction `executeCommand` for canvas. -/
def executeCommandNE (interp : CanvasInterp) (orig : Option (List Char))
    (canvas : List ShapeData) : List ShapeData :=
  (effectiveActions interp.action orig).foldl (execActionNE interp.shapes orig)
    canvas

end Canvas

namespace Groq

/-!
## The oracle-response sanitizer / JSON extractor

A model of `interpretCommand`'s response handling.  JSON values are
modelled with integer numbers and without `\uXXXX` escapes (no claim
involves fractional numeric literals or unicode escapes); otherwise the
parser follows `JSON.parse`: optional whitespace, strings with `\"`/`\\`
and the standard single-character escapes, arrays, objects, `null`,
booleans, and full-input consumption.
-/

/-- `'{'` (written out to keep braces out of the source text). -/
def lbrace : Char := Char.ofNat 123

/-- `'}'`. -/
def rbrace : Char := Char.ofNat 125

/-- `'"'`. -/
def dquote : Char := Char.ofNat 34

/-- `'\'`. -/
def bslash : Char := Char.ofNat 92

mutual
/-- A JSON value. -/
inductive Json where
  | null : Json
  | bool (b : Bool) : Json
  | num (n : Int) : Json
  | str (s : List Char) : Json
  | arr (elems : JsonList) : Json
  | obj (fields : JsonFields) : Json
deriving DecidableEq
/-- The elements of a JSON array. -/
inductive JsonList where
  | nil : JsonList
  | cons (hd : Json) (tl : JsonList) : JsonList
deriving DecidableEq
/-- The fields of a JSON object, in written order. -/
inductive JsonFields where
  | nil : JsonFields
  | cons (key : List Char) (val : Json) (tl : JsonFields) : JsonFields
deriving DecidableEq
end

/-- The elements of a `JsonList`, as a Lean list. -/
def jsonListToList : JsonList → List Json
  | .nil => []
  | .cons hd tl => hd :: jsonListToList tl

/-- Field lookup on an object; duplicate keys resolve to the last one, as
`JSON.parse` does.  `none` on non-objects and missing keys. -/
def getField (j : Json) (key : List Char) : Option Json :=
  match j with
  | .obj fs => getFieldIn fs key
  | _ => none
where getFieldIn : JsonFields → List Char → Option Json
  | .nil, _ => none
  | .cons k v tl, key =>
    match getFieldIn tl key with
    | some r => some r
    | none => if k = key then some v else none

/-! ### Serializer (the shape of a written JSON document) -/

/-- Escape one character for a JSON string literal. -/
def escapeChar (c : Char) : List Char :=
  if c = dquote ∨ c = bslash then [bslash, c] else [c]

/-- Escape a whole string body. -/
def escapeChars (s : List Char) : List Char := s.flatMap escapeChar

/-- Serialize a string literal with surrounding quotes. -/
def serializeStr (s : List Char) : List Char :=
  dquote :: (escapeChars s ++ [dquote])

/-- Decimal digits of `n`, least significant first. -/
def natToRevDigits (n : Nat) : List Char :=
  if h : n = 0 then [] else
    Char.ofNat (48 + n % 10) :: natToRevDigits (n / 10)
decreasing_by exact Nat.div_lt_self (Nat.pos_of_ne_zero h) (by norm_num)

/-- Decimal rendering of a natural number. -/
def natDigits (n : Nat) : List Char :=
  if n = 0 then ['0'] else (natToRevDigits n).reverse

/-- Decimal rendering of an integer. -/
def serializeInt (n : Int) : List Char :=
  if n < 0 then '-' :: natDigits n.natAbs else natDigits n.natAbs

mutual
/-- Serialize a JSON value (compact, no whitespace). -/
def serializeJson : Json → List Char
  | .null => "null".data
  | .bool true => "true".data
  | .bool false => "false".data
  | .num n => serializeInt n
  | .str s => serializeStr s
  | .arr l => '[' :: (serializeElems l ++ [']'])
  | .obj f => lbrace :: (serializeFields f ++ [rbrace])
/-- Serialize array elements, comma separated. -/
def serializeElems : JsonList → List Char
  | .nil => []
  | .cons hd .nil => serializeJson hd
  | .cons hd tl@(.cons _ _) => serializeJson hd ++ ',' :: serializeElems tl
/-- Serialize object fields, comma separated. -/
def serializeFields : JsonFields → List Char
  | .nil => []
  | .cons k v .nil => serializeStr k ++ ':' :: serializeJson v
  | .cons k v tl@(.cons _ _ _) =>
      serializeStr k ++ ':' :: (serializeJson v ++ ',' :: serializeFields tl)
end

/-- What follows a field's value in a serialized object: nothing for the
last field, a comma and the remaining fields otherwise. -/
def serializeFieldsTail : JsonFields → List Char
  | .nil => []
  | .cons k v tl => ',' :: serializeFields (.cons k v tl)

/-! ### Parser (model of `JSON.parse`) -/

/-- JSON whitespace (`JSON.parse` skips exactly these). -/
def isJsonWs (c : Char) : Bool := c = ' ' ∨ c = '\t' ∨ c = '\n' ∨ c = '\r'

/-- Skip JSON whitespace. -/
def skipWs (l : List Char) : List Char := l.dropWhile isJsonWs

/-- ASCII decimal digit? -/
def charIsDigit (c : Char) : Bool := '0' ≤ c ∧ c ≤ '9'

/-- Numeric value of a digit character. -/
def digitVal (c : Char) : Nat := c.toNat - 48

/-- Value of a most-significant-first digit string. -/
def digitsVal (ds : List Char) : Nat :=
  ds.foldl (fun a c => 10 * a + digitVal c) 0

/-- Parse an integer literal at the head of the input. -/
def parseNum : List Char → Option (Int × List Char)
  | [] => none
  | c :: rest =>
    if c = '-' then
      let ds := rest.takeWhile charIsDigit
      if ds = [] then none
      else some (-(digitsVal ds : Int), rest.dropWhile charIsDigit)
    else
      let ds := (c :: rest).takeWhile charIsDigit
      if ds = [] then none
      else some ((digitsVal ds : Int), (c :: rest).dropWhile charIsDigit)

/-- Resolve a string escape (the `\uXXXX` form is not modelled). -/
def unescape (c : Char) : Option Char :=
  if c = dquote then some dquote
  else if c = bslash then some bslash
  else if c = '/' then some '/'
  else if c = 'n' then some '\n'
  else if c = 't' then some '\t'
  else if c = 'r' then some '\r'
  else if c = 'b' then some (Char.ofNat 8)
  else if c = 'f' then some (Char.ofNat 12)
  else none

/-- Parse a string body after the opening quote, accumulating in reverse. -/
def parseStringBody : List Char → List Char → Option (List Char × List Char)
  | [], _ => none
  | c :: rest, acc =>
    if c = dquote then some (acc.reverse, rest)
    else if c = bslash then
      match rest with
      | [] => none
      | e :: rest2 =>
        match unescape e with
        | some u => parseStringBody rest2 (u :: acc)
        | none => none
    else parseStringBody rest (c :: acc)

/-- Match a literal continuation (for `null`/`true`/`false`). -/
def expectLit (lit l : List Char) : Option (List Char) :=
  if lit.isPrefixOf l then some (l.drop lit.length) else none

/-- Result of one `parseStep` call: a value, an element list, or a field
list, depending on the requested mode. -/
inductive ParseOut where
  | pv (j : Json) : ParseOut
  | pl (l : JsonList) : ParseOut
  | pf (f : JsonFields) : ParseOut

/-- The recursive core of the `JSON.parse` model, fuel-driven in one
function so that the kernel can evaluate it.  `mode 0` parses one value,
`mode 1` the elements of a non-empty array (consuming the closing `]`),
`mode 2` the fields of a non-empty object (consuming the closing brace). -/
def parseStep : Nat → Nat → List Char → Option (ParseOut × List Char)
  | 0, _, _ => none
  | fuel + 1, mode, cs0 =>
    if mode = 1 then
      match parseStep fuel 0 cs0 with
      | some (.pv v, r) =>
        match skipWs r with
        | [] => none
        | c :: r2 =>
          if c = ',' then
            match parseStep fuel 1 r2 with
            | some (.pl l, r3) => some (.pl (.cons v l), r3)
            | _ => none
          else if c = ']' then some (.pl (.cons v .nil), r2)
          else none
      | _ => none
    else if mode = 2 then
      match skipWs cs0 with
      | [] => none
      | c :: rest =>
        if c = dquote then
          match parseStringBody rest [] with
          | none => none
          | some (k, r) =>
            match skipWs r with
            | [] => none
            | c2 :: r2 =>
              if c2 = ':' then
                match parseStep fuel 0 r2 with
                | some (.pv v, r3) =>
                  match skipWs r3 with
                  | [] => none
                  | c3 :: r4 =>
                    if c3 = ',' then
                      match parseStep fuel 2 r4 with
                      | some (.pf f, r5) => some (.pf (.cons k v f), r5)
                      | _ => none
                    else if c3 = rbrace then some (.pf (.cons k v .nil), r4)
                    else none
                | _ => none
              else none
        else none
    else
      match skipWs cs0 with
      | [] => none
      | c :: rest =>
        if c = dquote then
          match parseStringBody rest [] with
          | some (s, r) => some (.pv (.str s), r)
          | none => none
        else if c = lbrace then
          match skipWs rest with
          | [] => none
          | c2 :: r2 =>
            if c2 = rbrace then some (.pv (.obj .nil), r2)
            else
              match parseStep fuel 2 (c2 :: r2) with
              | some (.pf f, r) => some (.pv (.obj f), r)
              | _ => none
        else if c = '[' then
          match skipWs rest with
          | [] => none
          | c2 :: r2 =>
            if c2 = ']' then some (.pv (.arr .nil), r2)
            else
              match parseStep fuel 1 (c2 :: r2) with
              | some (.pl l, r) => some (.pv (.arr l), r)
              | _ => none
        else if c = 'n' then
          match expectLit ("ull".data) rest with
          | some r => some (.pv .null, r)
          | none => none
        else if c = 't' then
          match expectLit ("rue".data) rest with
          | some r => some (.pv (.bool true), r)
          | none => none
        else if c = 'f' then
          match expectLit ("alse".data) rest with
          | some r => some (.pv (.bool false), r)
          | none => none
        else if c = '-' ∨ charIsDigit c then
          match parseNum (c :: rest) with
          | some (n, r) => some (.pv (.num n), r)
          | none => none
        else none

/-- Parse one JSON value; returns it with the unconsumed remainder. -/
def parseVal (fuel : Nat) (cs : List Char) : Option (Json × List Char) :=
  match parseStep fuel 0 cs with
  | some (.pv j, r) => some (j, r)
  | _ => none

mutual
/-- Structural size of a JSON value: a fuel bound for the parser. -/
def sizeJ : Json → Nat
  | .null => 1
  | .bool _ => 1
  | .num _ => 1
  | .str _ => 1
  | .arr l => sizeL l + 1
  | .obj f => sizeF f + 1
/-- Fuel bound for `parseElems`. -/
def sizeL : JsonList → Nat
  | .nil => 0
  | .cons hd tl => sizeJ hd + sizeL tl + 1
/-- Fuel bound for `parseFields`. -/
def sizeF : JsonFields → Nat
  | .nil => 0
  | .cons _ v tl => sizeJ v + sizeF tl + 1
end

/-- `JSON.parse`: one value, then only whitespace may remain. -/
def jsonParse (cs : List Char) : Option Json :=
  match parseVal (cs.length + 1) cs with
  | some (j, rest) => if skipWs rest = [] then some j else none
  | none => none

/-! ### `sanitizeAiResponse` -/

/-- A `\s` character of the regex engine (and of `String.trim`); the
characters occurring in practice. -/
def isRegexWs (c : Char) : Bool :=
  c = ' ' ∨ c = '\t' ∨ c = '\n' ∨ c = '\r' ∨
    c = Char.ofNat 11 ∨ c = Char.ofNat 12

/-- An ASCII letter, for the `[a-zA-Z]` language hint after a fence. -/
def isAsciiLetter (c : Char) : Bool :=
  ('a' ≤ c ∧ c ≤ 'z') ∨ ('A' ≤ c ∧ c ≤ 'Z')

/-- `text.replace(/```[a-zA-Z]*\n?/g, '')`: left-to-right removal of each
fence, its language hint and one following newline. -/
def removeFencesLangGo : Nat → List Char → List Char
  | 0, l => l
  | fuel + 1, l =>
    if ("```".data).isPrefixOf l then
      let r := (l.drop 3).dropWhile isAsciiLetter
      match r with
      | c :: rest =>
        if c = '\n' then removeFencesLangGo fuel rest
        else removeFencesLangGo fuel r
      | [] => []
    else
      match l with
      | [] => []
      | c :: rest => c :: removeFencesLangGo fuel rest

/-- `cleaned.replace(/```/g, '')`. -/
def removeFencesBareGo : Nat → List Char → List Char
  | 0, l => l
  | fuel + 1, l =>
    if ("```".data).isPrefixOf l then removeFencesBareGo fuel (l.drop 3)
    else
      match l with
      | [] => []
      | c :: rest => c :: removeFencesBareGo fuel rest

/-- Try to match `\s*\/\/.*` at this position (the part of the comment
regex after its `(^|\n)` anchor); on success return the remainder, which
keeps the `\n`-or-end lookahead unconsumed. -/
def matchLineComment (l : List Char) : Option (List Char) :=
  let r := l.dropWhile isRegexWs
  if ("//".data).isPrefixOf r then
    some ((r.drop 2).dropWhile fun c => !(c = '\n'))
  else none

/-- The scan of `cleaned.replace(/(^|\n)\s*\/\/.*(?=\n|$)/g, '$1')` after
position 0: a match may begin at each `\n`, which is kept (`$1`). -/
def removeCommentsGo : Nat → List Char → List Char
  | 0, l => l
  | fuel + 1, l =>
    match l with
    | [] => []
    | c :: rest =>
      if c = '\n' then
        match matchLineComment rest with
        | some remainder => '\n' :: removeCommentsGo fuel remainder
        | none => '\n' :: removeCommentsGo fuel rest
      else c :: removeCommentsGo fuel rest

/-- The whole comment-removal replacement, including the `^` anchor case
at position 0. -/
def removeComments (l : List Char) : List Char :=
  match matchLineComment l with
  | some remainder => removeCommentsGo (remainder.length + 1) remainder
  | none => removeCommentsGo (l.length + 1) l

/-- `cleaned.replace(/,\s*(\]|\})/g, '$1')`: drop a comma (and whitespace)
directly before a closing bracket or brace. -/
def removeTrailingCommasGo : Nat → List Char → List Char
  | 0, l => l
  | fuel + 1, l =>
    match l with
    | [] => []
    | c :: rest =>
      if c = ',' then
        match rest.dropWhile isRegexWs with
        | b :: r3 =>
          if b = ']' ∨ b = rbrace then b :: removeTrailingCommasGo fuel r3
          else c :: removeTrailingCommasGo fuel rest
        | [] => c :: removeTrailingCommasGo fuel rest
      else c :: removeTrailingCommasGo fuel rest

/-- `trim` over the practical whitespace set. -/
def trimWs (l : List Char) : List Char :=
  ((l.dropWhile isRegexWs).reverse.dropWhile isRegexWs).reverse

/-- `sanitizeAiResponse`: strip fences and language hints, strip line
comments, strip trailing commas, trim.  None of the replacements is aware
of JSON string literals. -/
def sanitizeAiResponse (text : List Char) : List Char :=
  trimWs (removeTrailingCommasGo (text.length + 1)
    (removeComments (removeFencesBareGo (text.length + 1)
      (removeFencesLangGo (text.length + 1) text))))

/-! ### `extractJsonBlocks` and `findFirstJsonObject` -/

/-- Result of the inner scan of `extractJsonBlocks` from one `{`. -/
inductive ScanResult where
  | found (block : Json) (rest : List Char) : ScanResult
  | exhausted : ScanResult
deriving DecidableEq

/-- The inner character scan from an opening brace: string-aware depth
tracking; at each return of the depth to zero the candidate so far is
offered to `JSON.parse`, and scanning continues past failed candidates. -/
def extractScan (candRev : List Char) (depth : Int) (inString esc : Bool) :
    List Char → ScanResult
  | [] => .exhausted
  | c :: rest =>
    if inString then
      if esc then extractScan (c :: candRev) depth true false rest
      else if c = bslash then extractScan (c :: candRev) depth true true rest
      else if c = dquote then extractScan (c :: candRev) depth false false rest
      else extractScan (c :: candRev) depth true false rest
    else
      if c = dquote then extractScan (c :: candRev) depth true false rest
      else if c = lbrace then
        extractScan (c :: candRev) (depth + 1) false false rest
      else if c = rbrace then
        if depth - 1 = 0 then
          match jsonParse (c :: candRev).reverse with
          | some j => .found j rest
          | none => extractScan (c :: candRev) (depth - 1) false false rest
        else extractScan (c :: candRev) (depth - 1) false false rest
      else extractScan (c :: candRev) depth false false rest

/-- The outer loop of `extractJsonBlocks`: jump to the next `{`, scan; a
parsed block is collected and the scan resumes after it; a scan that
exhausts the text ends extraction. -/
def extractJsonBlocksGo : Nat → List Char → List Json
  | 0, _ => []
  | fuel + 1, text =>
    match text.dropWhile (fun c => !(c = lbrace)) with
    | [] => []
    | t =>
      match extractScan [] 0 false false t with
      | .found j rest => j :: extractJsonBlocksGo fuel rest
      | .exhausted => []

/-- `extractJsonBlocks`. -/
def extractJsonBlocks (text : List Char) : List Json :=
  extractJsonBlocksGo (text.length + 1) text

/-- The inner scan of `findFirstJsonObject`: return the first substring
that closes back to depth zero, without attempting to parse it. -/
def findFirstScan (candRev : List Char) (depth : Int) (inString esc : Bool) :
    List Char → Option (List Char)
  | [] => none
  | c :: rest =>
    if inString then
      if esc then findFirstScan (c :: candRev) depth true false rest
      else if c = bslash then findFirstScan (c :: candRev) depth true true rest
      else if c = dquote then findFirstScan (c :: candRev) depth false false rest
      else findFirstScan (c :: candRev) depth true false rest
    else
      if c = dquote then findFirstScan (c :: candRev) depth true false rest
      else if c = lbrace then
        findFirstScan (c :: candRev) (depth + 1) false false rest
      else if c = rbrace then
        if depth - 1 = 0 then some (c :: candRev).reverse
        else findFirstScan (c :: candRev) (depth - 1) false false rest
      else findFirstScan (c :: candRev) depth false false rest

/-- The outer loop of `findFirstJsonObject`: on an unbalanced scan, retry
from one character past the current `{`. -/
def findFirstJsonObjectGo : Nat → List Char → Option (List Char)
  | 0, _ => none
  | fuel + 1, text =>
    match text.dropWhile (fun c => !(c = lbrace)) with
    | [] => none
    | t =>
      match findFirstScan [] 0 false false t with
      | some cand => some cand
      | none => findFirstJsonObjectGo fuel (t.drop 1)

/-- `findFirstJsonObject`. -/
def findFirstJsonObject (text : List Char) : Option (List Char) :=
  findFirstJsonObjectGo (text.length + 1) text

/-! ### `interpretCommand`'s response handling -/

/-- The `appType` argument. -/
inductive AppType where
  | canvas : AppType
  | tasks : AppType
  | layout : AppType
deriving DecidableEq

/-- The interpretation record, restricted to the fields the canvas flow
reads (`action`, `shapes`, `message`, `error`). -/
structure Interpretation where
  action : List Char
  shapes : List Json
  message : List Char
  error : Option (List Char)
deriving DecidableEq

/-- The default action of the multi-block and single-block recovery paths:
`appType === 'canvas' ? 'draw' : 'create_task'`. -/
def mergeDefaultAction : AppType → List Char
  | .canvas => "draw".data
  | _ => "create_task".data

/-- The default action of the no-JSON fallback:
`canvas ? 'draw' : tasks ? 'create_task' : 'create_layout'`. -/
def failDefaultAction : AppType → List Char
  | .canvas => "draw".data
  | .tasks => "create_task".data
  | .layout => "create_layout".data

/-- Accumulator of the merge loop over extracted blocks. -/
structure MergeAcc where
  actions : List (List Char)
  shapes : List Json
  lastMessage : List Char
deriving DecidableEq

/-- One step of the merge loop: push a string `action`, append an array
`shapes`, overwrite the message with any string `message`. -/
def mergeStep (acc : MergeAcc) (block : Json) : MergeAcc :=
  let acc1 :=
    match getField block ("action".data) with
    | some (.str s) => { acc with actions := acc.actions ++ [s] }
    | _ => acc
  let acc2 :=
    match getField block ("shapes".data) with
    | some (.arr l) => { acc1 with shapes := acc1.shapes ++ jsonListToList l }
    | _ => acc1
  match getField block ("message".data) with
  | some (.str m) => { acc2 with lastMessage := m }
  | _ => acc2

/-- `actions.join('|')`. -/
def joinBar (ls : List (List Char)) : List Char := List.intercalate ['|'] ls

/-- The string `action` fields of the blocks, in extraction order. -/
def actionStrings (blocks : List Json) : List (List Char) :=
  blocks.filterMap fun b =>
    match getField b ("action".data) with
    | some (.str s) => some s
    | _ => none

/-- The concatenation of the blocks' `shapes` arrays, in order. -/
def shapesConcat (blocks : List Json) : List Json :=
  blocks.flatMap fun b =>
    match getField b ("shapes".data) with
    | some (.arr l) => jsonListToList l
    | _ => []

/-- The last string-typed `message` field among the blocks (what the
source's merge loop ends up holding). -/
def lastStrMessage (blocks : List Json) : Option (List Char) :=
  (blocks.filterMap fun b =>
    match getField b ("message".data) with
    | some (.str m) => some m
    | _ => none).getLast?

/-- Written from the specification's words for comparison (claim C4): the
last non-empty `message` among the blocks. -/
def specLastNonEmptyMessage (blocks : List Json) : Option (List Char) :=
  (blocks.filterMap fun b =>
    match getField b ("message".data) with
    | some (.str m) => if m = [] then none else some m
    | _ => none).getLast?

/-- The degraded fallback interpretation: whole raw text as the message,
context-default action, `error` set. -/
def fallbackInterp (raw : List Char) (appType : AppType) : Interpretation :=
  { action := failDefaultAction appType, shapes := [],
    message := raw, error := some ("Could not parse command structure".data) }

/-- A string field read through JavaScript `x || default` (empty string is
falsy); non-string truthy values do not occur in the runs modelled here. -/
def strFieldOr (j : Json) (key dflt : List Char) : List Char :=
  match getField j key with
  | some (.str s) => if s = [] then dflt else s
  | _ => dflt

/-- An array field read through `x || []`. -/
def arrFieldOr (j : Json) (key : List Char) : List Json :=
  match getField j key with
  | some (.arr l) => jsonListToList l
  | _ => []

/-- The direct path: the whole response parsed as one JSON document
(`action` taken as is, a missing one modelled as the empty string). -/
def directInterp (j : Json) : Interpretation :=
  { action := (match getField j ("action".data) with
               | some (.str s) => s
               | _ => []),
    shapes := arrFieldOr j ("shapes".data),
    message := strFieldOr j ("message".data) ("Command processed".data),
    error := none }

/-- The model of `interpretCommand`'s response handling: direct parse,
else sanitize-and-extract with the block merge, else the first balanced
block, else the degraded fallback.  Nothing in it throws. -/
def interpretResponse (raw : List Char) (appType : AppType) : Interpretation :=
  match jsonParse raw with
  | some j => directInterp j
  | none =>
    let sanitized := sanitizeAiResponse raw
    let blocks := extractJsonBlocks sanitized
    if blocks.length > 0 then
      let acc := blocks.foldl mergeStep ⟨[], [], []⟩
      { action := if acc.actions.length > 0 then joinBar acc.actions
                  else mergeDefaultAction appType,
        shapes := acc.shapes,
        message := if acc.lastMessage = [] then "Command processed".data
                   else acc.lastMessage,
        error := none }
    else
      match findFirstJsonObject sanitized with
      | some first =>
        match jsonParse first with
        | some block =>
          { action := strFieldOr block ("action".data)
              (mergeDefaultAction appType),
            shapes := arrFieldOr block ("shapes".data),
            message := strFieldOr block ("message".data)
              ("Command processed".data),
            error := none }
        | none => fallbackInterp raw appType
      | none => fallbackInterp raw appType

/-- Concrete response: two concatenated objects, the second with an empty
`message` (claim C4). -/
def rawC4 : List Char :=
  ("\x7b\"action\":\"clear\",\"message\":\"hello\"\x7d\x7b\"action\":\"draw\",\"message\":\"\"\x7d").data

/-- Concrete response: a stray `\x7b` before a well-formed object, so that
block extraction exhausts but the first-object rescue succeeds (claim C7). -/
def rawC7cex : List Char :=
  ("\x7b \x7b\"action\":\"clear\",\"message\":\"hi\"\x7d").data

/-- Concrete response with no JSON at all (claim C7). -/
def rawC7w : List Char := ("hello oracle").data

/-- Concrete object whose `message` string contains `, \x7d` (claim C8). -/
def objBadC8 : Json :=
  .obj (.cons ("message".data) (.str ("a, \x7d".data)) .nil)

/-- The serialization of `objBadC8`, given bare (claim C8). -/
def rawBadC8 : List Char := ("\x7b\"message\":\"a, \x7d\"\x7d").data

/-- Concrete fence-wrapped well-formed object (claim C8). -/
def rawC8w : List Char :=
  ("```json\n\x7b\"action\":\"draw\",\"message\":\"ok\"\x7d\n```").data

/-- The fields of the object inside `rawC8w` (claim C8). -/
def fC8w : JsonFields :=
  .cons ("action".data) (.str ("draw".data))
    (.cons ("message".data) (.str ("ok".data)) .nil)

end Groq

/-! # Lemmas and claim theorems -/

namespace Canvas

/-! ## Preservation lemmas for the shape transformations -/

lemma translateShape_stype (dx dy : ℚ) (s : ShapeData) :
    (translateShape dx dy s).stype = s.stype := rfl

lemma translateShape_width (dx dy : ℚ) (s : ShapeData) :
    (translateShape dx dy s).width = s.width := rfl

lemma translateShape_height (dx dy : ℚ) (s : ShapeData) :
    (translateShape dx dy s).height = s.height := rfl

lemma translateShape_radius (dx dy : ℚ) (s : ShapeData) :
    (translateShape dx dy s).radius = s.radius := rfl

lemma shiftOpt_isSome (d : ℚ) (o : Option ℚ) :
    (shiftOpt d o).isSome = o.isSome := by
  cases o <;> rfl

lemma translateShape_x_isSome (dx dy : ℚ) (s : ShapeData) :
    (translateShape dx dy s).x.isSome = s.x.isSome := by
  simpa [translateShape] using shiftOpt_isSome dx s.x

lemma translateShape_y_isSome (dx dy : ℚ) (s : ShapeData) :
    (translateShape dx dy s).y.isSome = s.y.isSome := by
  simpa [translateShape] using shiftOpt_isSome dy s.y

lemma translateShape_x2_isSome (dx dy : ℚ) (s : ShapeData) :
    (translateShape dx dy s).x2.isSome = s.x2.isSome := by
  simpa [translateShape] using shiftOpt_isSome dx s.x2

lemma translateShape_y2_isSome (dx dy : ℚ) (s : ShapeData) :
    (translateShape dx dy s).y2.isSome = s.y2.isSome := by
  simpa [translateShape] using shiftOpt_isSome dy s.y2

lemma moveXY_stype (cx cy sc tx ty : ℚ) (s : ShapeData) :
    (moveXY cx cy sc tx ty s).stype = s.stype := by
  cases hx : s.x <;> cases hy : s.y <;> simp [moveXY, hx, hy]

lemma moveXY_width (cx cy sc tx ty : ℚ) (s : ShapeData) :
    (moveXY cx cy sc tx ty s).width = s.width := by
  cases hx : s.x <;> cases hy : s.y <;> simp [moveXY, hx, hy]

lemma moveXY_height (cx cy sc tx ty : ℚ) (s : ShapeData) :
    (moveXY cx cy sc tx ty s).height = s.height := by
  cases hx : s.x <;> cases hy : s.y <;> simp [moveXY, hx, hy]

lemma moveXY_radius (cx cy sc tx ty : ℚ) (s : ShapeData) :
    (moveXY cx cy sc tx ty s).radius = s.radius := by
  cases hx : s.x <;> cases hy : s.y <;> simp [moveXY, hx, hy]

lemma moveXY_x_isSome (cx cy sc tx ty : ℚ) (s : ShapeData) :
    (moveXY cx cy sc tx ty s).x.isSome = s.x.isSome := by
  cases hx : s.x <;> cases hy : s.y <;> simp [moveXY, hx, hy]

lemma moveXY_y_isSome (cx cy sc tx ty : ℚ) (s : ShapeData) :
    (moveXY cx cy sc tx ty s).y.isSome = s.y.isSome := by
  cases hx : s.x <;> cases hy : s.y <;> simp [moveXY, hx, hy]

lemma moveXY_x2 (cx cy sc tx ty : ℚ) (s : ShapeData) :
    (moveXY cx cy sc tx ty s).x2 = s.x2 := by
  cases hx : s.x <;> cases hy : s.y <;> simp [moveXY, hx, hy]

lemma moveXY_y2 (cx cy sc tx ty : ℚ) (s : ShapeData) :
    (moveXY cx cy sc tx ty s).y2 = s.y2 := by
  cases hx : s.x <;> cases hy : s.y <;> simp [moveXY, hx, hy]

lemma normalizeShape_stype (cx cy sc tx ty : ℚ) (s : ShapeData) :
    (normalizeShape cx cy sc tx ty s).stype = s.stype := by
  obtain ⟨st, sx, sy, sw, sh, sr, sx2, sy2, sco, ssw, sst⟩ := s
  cases st with
  | none => rfl
  | some t =>
    simp only [normalizeShape]
    split_ifs <;> (cases sx <;> cases sy <;> cases sx2 <;> cases sy2 <;> rfl)

lemma normalizeShape_x_isSome (cx cy sc tx ty : ℚ) (s : ShapeData) :
    (normalizeShape cx cy sc tx ty s).x.isSome = s.x.isSome := by
  obtain ⟨st, sx, sy, sw, sh, sr, sx2, sy2, sco, ssw, sst⟩ := s
  cases st with
  | none => rfl
  | some t =>
    simp only [normalizeShape]
    split_ifs <;> (cases sx <;> cases sy <;> cases sx2 <;> cases sy2 <;> rfl)

lemma normalizeShape_y_isSome (cx cy sc tx ty : ℚ) (s : ShapeData) :
    (normalizeShape cx cy sc tx ty s).y.isSome = s.y.isSome := by
  obtain ⟨st, sx, sy, sw, sh, sr, sx2, sy2, sco, ssw, sst⟩ := s
  cases st with
  | none => rfl
  | some t =>
    simp only [normalizeShape]
    split_ifs <;> (cases sx <;> cases sy <;> cases sx2 <;> cases sy2 <;> rfl)

lemma normalizeShape_width_rect (cx cy sc tx ty : ℚ) (s : ShapeData)
    (h : s.stype = some "rectangle" ∨ s.stype = some "triangle") :
    (normalizeShape cx cy sc tx ty s).width = scaleSize sc s.width := by
  obtain ⟨st, sx, sy, sw, sh, sr, sx2, sy2, sco, ssw, sst⟩ := s
  simp only at h
  rcases h with h | h <;> subst h <;>
    (cases sx <;> cases sy <;> rfl)

lemma normalizeShape_height_rect (cx cy sc tx ty : ℚ) (s : ShapeData)
    (h : s.stype = some "rectangle" ∨ s.stype = some "triangle") :
    (normalizeShape cx cy sc tx ty s).height = scaleSize sc s.height := by
  obtain ⟨st, sx, sy, sw, sh, sr, sx2, sy2, sco, ssw, sst⟩ := s
  simp only at h
  rcases h with h | h <;> subst h <;>
    (cases sx <;> cases sy <;> rfl)

lemma normalizeShape_radius_circ (cx cy sc tx ty : ℚ) (s : ShapeData)
    (h : s.stype = some "circle" ∨ s.stype = some "star") :
    (normalizeShape cx cy sc tx ty s).radius = scaleSize sc s.radius := by
  obtain ⟨st, sx, sy, sw, sh, sr, sx2, sy2, sco, ssw, sst⟩ := s
  simp only at h
  rcases h with h | h <;> subst h <;>
    (cases sx <;> cases sy <;> rfl)

lemma getShapeBounds_translate_isSome (dx dy : ℚ) (s : ShapeData) :
    (getShapeBounds (translateShape dx dy s)).isSome =
      (getShapeBounds s).isSome := by
  obtain ⟨st, sx, sy, sw, sh, sr, sx2, sy2, sco, ssw, sst⟩ := s
  cases st with
  | none => rfl
  | some t =>
    simp only [getShapeBounds, translateShape]
    split_ifs <;>
      (cases sx <;> cases sy <;> cases sr <;> cases sw <;> cases sh <;>
        cases sx2 <;> cases sy2 <;> rfl)

lemma validShape_bounds_isSome (s : ShapeData) (h : validShape s = true) :
    (getShapeBounds s).isSome = true := by
  obtain ⟨st, sx, sy, sw, sh, sr, sx2, sy2, sco, ssw, sst⟩ := s
  cases st with
  | none => exact absurd h (by simp [validShape])
  | some t =>
    have hmem : t ∈ shapeTypes := by
      by_contra hmem
      have : shapeTypes.contains t = false := by
        simpa using hmem
      simp [validShape, this] at h
      exact hmem h.1.2
    fin_cases hmem <;>
      (simp only [validShape] at h ; simp only [getShapeBounds]) <;>
      (cases sx <;> cases sy <;> cases sr <;> cases sw <;> cases sh <;>
        cases sx2 <;> cases sy2 <;> simp_all)

lemma unionStep_isSome (acc : Option BBox) (s : ShapeData) :
    (unionStep acc s).isSome = (acc.isSome || (getShapeBounds s).isSome) := by
  unfold unionStep
  cases getShapeBounds s <;> cases acc <;> simp

lemma foldl_unionStep_isSome (l : List ShapeData) :
    ∀ acc : Option BBox, acc.isSome = true →
      (List.foldl unionStep acc l).isSome = true := by
  induction l with
  | nil => intro acc h; simpa using h
  | cons a l ih =>
    intro acc h
    simp only [List.foldl]
    exact ih _ (by simp [unionStep_isSome, h])

lemma foldl_unionStep_isSome_of_mem (s : ShapeData)
    (hb : (getShapeBounds s).isSome = true) :
    ∀ l : List ShapeData, s ∈ l → ∀ acc : Option BBox,
      (List.foldl unionStep acc l).isSome = true := by
  intro l
  induction l with
  | nil => intro hs; cases hs
  | cons a rest ih =>
    intro hs acc
    simp only [List.foldl]
    rcases List.mem_cons.mp hs with rfl | hmem
    · exact foldl_unionStep_isSome rest _ (by simp [unionStep_isSome, hb])
    · exact ih hmem _

lemma computeBounds_isSome_of_mem (l : List ShapeData) (s : ShapeData)
    (hs : s ∈ l) (hb : (getShapeBounds s).isSome = true) :
    (computeBounds l).isSome = true :=
  foldl_unionStep_isSome_of_mem s hb l hs none

lemma anyOverlap_nil (comp : List ShapeData) : anyOverlap comp [] = false := by
  simp only [anyOverlap, List.any_eq_false]
  intro s _
  cases getShapeBounds s <;> simp

/-! ## Characterization of the candidate scan and the eviction loop -/

lemma tryCandidates_shape (shapes existing : List ShapeData) (cx cy : ℚ) :
    ∀ cand : List (ℚ × ℚ),
      tryCandidates shapes existing cx cy cand = shapes ∨
      ∃ dx dy, tryCandidates shapes existing cx cy cand =
        translateComposite shapes dx dy := by
  intro cand
  induction cand with
  | nil => exact Or.inl rfl
  | cons p rest ih =>
    obtain ⟨px, py⟩ := p
    simp only [tryCandidates]
    split_ifs
    · exact ih
    · exact Or.inr ⟨px - cx, py - cy, rfl⟩

lemma placeComposite_shape (shapes existing : List ShapeData) (cw ch : ℚ) :
    placeCompositeWithoutOverlap shapes existing cw ch = shapes ∨
    ∃ dx dy, placeCompositeWithoutOverlap shapes existing cw ch =
      translateComposite shapes dx dy := by
  unfold placeCompositeWithoutOverlap
  cases computeBounds shapes with
  | none => exact Or.inl rfl
  | some b => exact tryCandidates_shape shapes existing _ _ _

lemma evictLoop_spec (shapes : List ShapeData) (cw ch : ℚ) :
    ∀ existing : List ShapeData,
      (∃ k ≤ existing.length,
        (evictLoop shapes cw ch existing).2 = existing.drop k) ∧
      anyOverlap (evictLoop shapes cw ch existing).1
        (evictLoop shapes cw ch existing).2 = false ∧
      ((evictLoop shapes cw ch existing).1 = shapes ∨
        ∃ dx dy, (evictLoop shapes cw ch existing).1 =
          translateComposite shapes dx dy) := by
  intro existing
  induction existing with
  | nil =>
    exact ⟨⟨0, by simp, rfl⟩, anyOverlap_nil shapes, Or.inl rfl⟩
  | cons e rest ih =>
    simp only [evictLoop]
    split_ifs with hov
    · obtain ⟨⟨k, hk, hdrop⟩, hno, hshape⟩ := ih
      exact ⟨⟨k + 1, by simpa using hk, by simpa using hdrop⟩, hno, hshape⟩
    · refine ⟨⟨1, by simp, by simp⟩, by simpa using hov, ?_⟩
      exact placeComposite_shape shapes rest cw ch

lemma placeOrEvict_spec (shapes existing : List ShapeData) (cw ch : ℚ) :
    (∃ k ≤ existing.length,
      (placeOrEvict shapes existing cw ch).2 = existing.drop k) ∧
    anyOverlap (placeOrEvict shapes existing cw ch).1
      (placeOrEvict shapes existing cw ch).2 = false ∧
    ((placeOrEvict shapes existing cw ch).1 = shapes ∨
      ∃ dx dy, (placeOrEvict shapes existing cw ch).1 =
        translateComposite shapes dx dy) := by
  simp only [placeOrEvict]
  split_ifs with hov
  · exact evictLoop_spec shapes cw ch existing
  · exact ⟨⟨0, by simp, rfl⟩, by simpa using hov,
      placeComposite_shape shapes existing cw ch⟩

/-! ## The create loops -/

lemma createLoop_eq_filterMap (l : List ShapeData) :
    createLoop l = (l.filter validShape).map addDefaults := by
  induction l with
  | nil => rfl
  | cons s rest ih =>
    simp only [createLoop, List.filter]
    cases h : validShape s <;> simp [h, ih]

lemma createLoopNE_eq_filterMap (l : List ShapeData) :
    createLoopNE l = (l.filter validShapeNE).map addDefaults := by
  induction l with
  | nil => rfl
  | cons s rest ih =>
    simp only [createLoopNE, List.filter]
    cases h : validShapeNE s <;> simp [h, ih]

lemma createLoopNE_all_valid (l : List ShapeData)
    (h : ∀ s ∈ l, validShapeNE s = true) :
    createLoopNE l = l.map addDefaults := by
  rw [createLoopNE_eq_filterMap, List.filter_eq_self.mpr h]

lemma addDefaults_stype (s : ShapeData) : (addDefaults s).stype = s.stype := rfl

lemma addDefaults_width (s : ShapeData) : (addDefaults s).width = s.width := rfl

lemma addDefaults_height (s : ShapeData) : (addDefaults s).height = s.height := rfl

lemma addDefaults_radius (s : ShapeData) : (addDefaults s).radius = s.radius := rfl

/-! ## Validity is stable under normalization and translation -/

lemma validShapeNE_translateShape (dx dy : ℚ) (s : ShapeData) :
    validShapeNE (translateShape dx dy s) = validShapeNE s := by
  obtain ⟨st, sx, sy, sw, sh, sr, sx2, sy2, sco, ssw, sst⟩ := s
  cases st <;> cases sx <;> cases sy <;> rfl

lemma validShapeNE_normalizeShape (cx cy sc tx ty : ℚ) (s : ShapeData) :
    validShapeNE (normalizeShape cx cy sc tx ty s) = validShapeNE s := by
  obtain ⟨st, sx, sy, sw, sh, sr, sx2, sy2, sco, ssw, sst⟩ := s
  cases st with
  | none => rfl
  | some t =>
    simp only [normalizeShape]
    split_ifs <;> (cases sx <;> cases sy <;> cases sx2 <;> cases sy2 <;> rfl)

lemma normalizeShapesToCanvas_cases (l : List ShapeData) (opts : NormOpts) :
    normalizeShapesToCanvas l opts = l ∨
    ∃ cx cy sc, normalizeShapesToCanvas l opts =
      l.map (normalizeShape cx cy sc opts.centerX opts.centerY) := by
  unfold normalizeShapesToCanvas
  cases computeBounds l with
  | none => exact Or.inl rfl
  | some b => exact Or.inr ⟨_, _, _, rfl⟩

/-! ## Claim theorems (canvas pipeline) -/

/-- C9: for every lowercased command text containing `"smiley"` and any
proposed shape list, the template matcher answers `applied:true` with
template name `"smiley"` and exactly the 4-shape smiley group — one face
circle, two eye circles, one curved-line mouth — discarding the proposed
shapes; the keyword chain is ordered and this first match wins. -/
theorem smiley_template_C9 (cmd : List Char) (shapes : List ShapeData)
    (h : containsStr cmd ("smiley".data) = true) :
    maybeApplyTemplate cmd shapes =
      ⟨true, some "smiley", smileyTemplate⟩ ∧
    smileyTemplate =
      [mkCircle 300 250 80 "#FFC107" 4,
       mkCircle 270 220 8 "#000000" 2,
       mkCircle 330 220 8 "#000000" 2,
       mkLine 250 280 350 280 "#000000" 3 (some "curve")] ∧
    smileyTemplate.length = 4 ∧
    (smileyTemplate.countP fun s => decide (s.stype = some "circle")) = 3 ∧
    (smileyTemplate.countP fun s =>
      decide (s.stype = some "line" ∧ s.style = some "curve")) = 1 := by
  refine ⟨?_, rfl, rfl, by decide, by decide⟩
  unfold maybeApplyTemplate
  rw [h]
  simp

/-- Witness for C9 at the command `"draw a smiley face"`. -/
theorem smiley_template_C9_witness :
    maybeApplyTemplate ("draw a smiley face".data) [] =
      ⟨true, some "smiley", smileyTemplate⟩ :=
  (smiley_template_C9 ("draw a smiley face".data) [] (by decide)).1

/-- C3: `placeOrEvict` terminates (it is a total function of the remaining
canvas, the eviction loop recursing structurally on it); the surviving
canvas is a drop of the oldest `k` shapes (evictions are oldest-first, one
per retry of the full candidate scan); the returned group has no overlap
with the surviving canvas; and it is the input group either untranslated
or translated as a whole. -/
theorem placeOrEvict_oldest_first_C3 :
    ∀ (shapes existing : List ShapeData) (cw ch : ℚ),
      (∃ k ≤ existing.length,
        (placeOrEvict shapes existing cw ch).2 = existing.drop k) ∧
      anyOverlap (placeOrEvict shapes existing cw ch).1
        (placeOrEvict shapes existing cw ch).2 = false ∧
      ((placeOrEvict shapes existing cw ch).1 = shapes ∨
        ∃ dx dy, (placeOrEvict shapes existing cw ch).1 =
          translateComposite shapes dx dy) :=
  fun shapes existing cw ch => placeOrEvict_spec shapes existing cw ch

/-- C10: the anti-surprise guard filters only sub-actions whose trimmed
text is exactly `"clear"`.  For the command `"draw a nice smiley"` — whose
lowercased text contains none of `"clear"`, `"delete all"`, or the word
`"delete"` — a compound oracle action `"delete|draw"` keeps its `delete`
sub-action, and executing it clears the whole canvas: the result is the
draw pipeline over an emptied canvas, for every prior contents. -/
theorem delete_not_filtered_C10 :
    (containsStr (toLowerStr ("draw a nice smiley".data)) ("clear".data) = false ∧
     containsStr (toLowerStr ("draw a nice smiley".data)) ("delete all".data) = false ∧
     wordDelete (toLowerStr ("draw a nice smiley".data)) = false) ∧
    effectiveActions ("delete|draw".data) (some ("draw a nice smiley".data)) =
      ["delete".data, "draw".data] ∧
    ∀ (oracleShapes prior : List ShapeData),
      executeCommandNE ⟨"delete|draw".data, some oracleShapes⟩
        (some ("draw a nice smiley".data)) prior =
      drawPipelineNE oracleShapes (some ("draw a nice smiley".data)) [] :=
  ⟨by decide, by decide, fun _ _ => rfl⟩

/-- C2: a `"clear"` sub-action survives to execution exactly when the
lowercased original command itself requests clearing/deleting (the
executor's `explicitClear` guard) and the oracle's compound action listed
it; and for original text `"draw a nice smiley"` with oracle action
`"clear|draw"` the clear sub-action is dropped, the executed action list
is just `draw`, and every prior canvas survives as a prefix of the result,
followed by the 4 placed smiley shapes. -/
theorem clear_suppression_C2 :
    (∀ act cmd : List Char,
      "clear".data ∈ (effectiveActions act (some cmd)).map trimStr ↔
        explicitClear (toLowerStr cmd) = true ∧
          "clear".data ∈ (List.splitOn '|' act).map trimStr) ∧
    effectiveActions ("clear|draw".data) (some ("draw a nice smiley".data)) =
      ["draw".data] ∧
    ∀ (oracleShapes prior : List ShapeData),
      ∃ created,
        executeCommandNE ⟨"clear|draw".data, some oracleShapes⟩
          (some ("draw a nice smiley".data)) prior = prior ++ created ∧
        created.length = 4 := by
  refine ⟨?_, by decide, ?_⟩
  · intro act cmd
    simp only [effectiveActions]
    cases h : explicitClear (toLowerStr cmd) with
    | true => simp [h]
    | false =>
      simp only [h, Bool.false_eq_true, if_false]
      constructor
      · intro hmem
        exfalso
        simp only [List.mem_map, List.mem_filter] at hmem
        obtain ⟨a, ⟨_, hne⟩, htrim⟩ := hmem
        rw [htrim] at hne
        simp at hne
      · rintro ⟨hex, _⟩
        exact hex.elim
  · intro oracleShapes prior
    refine ⟨drawPipelineNE oracleShapes
      (some ("draw a nice smiley".data)) prior, rfl, ?_⟩
    have htmpl : applyTemplateStage oracleShapes
        (some ("draw a nice smiley".data)) = smileyTemplate := rfl
    simp only [drawPipelineNE, htmpl]
    have hW : ∀ s ∈ normalizeShapesToCanvas smileyTemplate canvasOpts,
        validShapeNE s = true := by
      rcases normalizeShapesToCanvas_cases smileyTemplate canvasOpts with
        hc | ⟨cx, cy, sc, hc⟩
      · rw [hc]; intro s hs; fin_cases hs <;> rfl
      · rw [hc]; intro s hs
        simp only [List.mem_map] at hs
        obtain ⟨t0, ht0, rfl⟩ := hs
        rw [validShapeNE_normalizeShape]
        fin_cases ht0 <;> rfl
    have hWlen : (normalizeShapesToCanvas smileyTemplate canvasOpts).length = 4 := by
      rcases normalizeShapesToCanvas_cases smileyTemplate canvasOpts with
        hc | ⟨cx, cy, sc, hc⟩ <;> rw [hc] <;> simp [smileyTemplate]
    have hvalid : ∀ s ∈ placeShape
        (normalizeShapesToCanvas smileyTemplate canvasOpts) prior 800 600,
        validShapeNE s = true := by
      unfold placeShape
      rcases placeComposite_shape
        (normalizeShapesToCanvas smileyTemplate canvasOpts) prior 800 600 with
        hp | ⟨dx, dy, hp⟩
      · rw [hp]; exact hW
      · rw [hp]; intro s hs
        simp only [translateComposite, List.mem_map] at hs
        obtain ⟨t0, ht0, rfl⟩ := hs
        rw [validShapeNE_translateShape]
        exact hW t0 ht0
    have hplen : (placeShape
        (normalizeShapesToCanvas smileyTemplate canvasOpts) prior 800 600).length
        = 4 := by
      unfold placeShape
      rcases placeComposite_shape
        (normalizeShapesToCanvas smileyTemplate canvasOpts) prior 800 600 with
        hp | ⟨dx, dy, hp⟩ <;> rw [hp]
      · exact hWlen
      · simpa [translateComposite] using hWlen
    rw [createLoopNE_all_valid _ hvalid, List.length_map, hplen]

/-- Witness for C2's guard equivalence at a concrete pair: for oracle
action `"clear|draw"` and original `"clear the canvas and draw"`, the
clear sub-action is executed. -/
theorem clear_suppression_C2_witness :
    "clear".data ∈
      (effectiveActions ("clear|draw".data)
        (some ("clear the canvas and draw".data))).map trimStr :=
  ((clear_suppression_C2.1 ("clear|draw".data)
    ("clear the canvas and draw".data)).mpr (by decide))

lemma tryCandidates_first_fit (shapes existing : List ShapeData) (cx cy : ℚ) :
    ∀ cand : List (ℚ × ℚ),
      (∃ l₁ p l₂, cand = l₁ ++ p :: l₂ ∧
        (∀ q ∈ l₁, anyOverlap
          (translateComposite shapes (q.1 - cx) (q.2 - cy)) existing = true) ∧
        anyOverlap (translateComposite shapes (p.1 - cx) (p.2 - cy)) existing
          = false ∧
        tryCandidates shapes existing cx cy cand =
          translateComposite shapes (p.1 - cx) (p.2 - cy)) ∨
      ((∀ q ∈ cand, anyOverlap
          (translateComposite shapes (q.1 - cx) (q.2 - cy)) existing = true) ∧
        tryCandidates shapes existing cx cy cand = shapes) := by
  intro cand
  induction cand with
  | nil => exact Or.inr ⟨by simp, rfl⟩
  | cons p rest ih =>
    obtain ⟨px, py⟩ := p
    by_cases hov : anyOverlap
        (translateComposite shapes (px - cx) (py - cy)) existing = true
    · have hstep : tryCandidates shapes existing cx cy ((px, py) :: rest) =
          tryCandidates shapes existing cx cy rest := by
        simp only [tryCandidates]
        rw [if_pos hov]
      rcases ih with ⟨l₁, p', l₂, hsplit, hall, hfree, heq⟩ | ⟨hall, heq⟩
      · refine Or.inl ⟨(px, py) :: l₁, p', l₂, by rw [hsplit]; rfl, ?_, hfree,
          by rw [hstep, heq]⟩
        intro q hq
        rcases List.mem_cons.mp hq with rfl | hq'
        · exact hov
        · exact hall q hq'
      · refine Or.inr ⟨?_, by rw [hstep, heq]⟩
        intro q hq
        rcases List.mem_cons.mp hq with rfl | hq'
        · exact hov
        · exact hall q hq'
    · refine Or.inl ⟨[], (px, py), rest, by simp, by simp,
        Bool.not_eq_true _ ▸ (by simpa using hov), ?_⟩
      simp only [tryCandidates]
      rw [if_neg hov]

/-- C5: the placement engine probes exactly the 16 candidate centers
`(c*W/5, r*H/5)`, `c,r ∈ 1..4`, in row-major order (`r` outer, `c`
inner); overlap means bounding boxes within the fixed margin 10 of each
other on both axes; the group is translated so its bounds center lands on
the first collision-free candidate, and if all 16 collide it is returned
untranslated. -/
theorem placement_first_fit_C5 :
    (∀ cw ch : ℚ, candidates cw ch =
      [(1 * cw / 5, 1 * ch / 5), (2 * cw / 5, 1 * ch / 5),
       (3 * cw / 5, 1 * ch / 5), (4 * cw / 5, 1 * ch / 5),
       (1 * cw / 5, 2 * ch / 5), (2 * cw / 5, 2 * ch / 5),
       (3 * cw / 5, 2 * ch / 5), (4 * cw / 5, 2 * ch / 5),
       (1 * cw / 5, 3 * ch / 5), (2 * cw / 5, 3 * ch / 5),
       (3 * cw / 5, 3 * ch / 5), (4 * cw / 5, 3 * ch / 5),
       (1 * cw / 5, 4 * ch / 5), (2 * cw / 5, 4 * ch / 5),
       (3 * cw / 5, 4 * ch / 5), (4 * cw / 5, 4 * ch / 5)]) ∧
    (∀ a b : BBox, rectsOverlap a b 10 = true ↔
      (b.minX ≤ a.maxX + 10 ∧ a.minX ≤ b.maxX + 10 ∧
       b.minY ≤ a.maxY + 10 ∧ a.minY ≤ b.maxY + 10)) ∧
    (∀ (shapes existing : List ShapeData) (cw ch : ℚ) (b : BBox),
      computeBounds shapes = some b →
      (∃ l₁ p l₂, candidates cw ch = l₁ ++ p :: l₂ ∧
        (∀ q ∈ l₁, anyOverlap (translateComposite shapes
          (q.1 - (b.minX + (b.maxX - b.minX) / 2))
          (q.2 - (b.minY + (b.maxY - b.minY) / 2))) existing = true) ∧
        anyOverlap (translateComposite shapes
          (p.1 - (b.minX + (b.maxX - b.minX) / 2))
          (p.2 - (b.minY + (b.maxY - b.minY) / 2))) existing = false ∧
        placeShape shapes existing cw ch = translateComposite shapes
          (p.1 - (b.minX + (b.maxX - b.minX) / 2))
          (p.2 - (b.minY + (b.maxY - b.minY) / 2))) ∨
      ((∀ q ∈ candidates cw ch, anyOverlap (translateComposite shapes
          (q.1 - (b.minX + (b.maxX - b.minX) / 2))
          (q.2 - (b.minY + (b.maxY - b.minY) / 2))) existing = true) ∧
        placeShape shapes existing cw ch = shapes)) := by
  refine ⟨?_, ?_, ?_⟩
  · intro cw ch
    have h4 : List.range 4 = [0, 1, 2, 3] := rfl
    simp [candidates, h4]
    norm_num
  · intro a b
    simp only [rectsOverlap, Bool.not_eq_true', Bool.or_eq_false_iff,
      decide_eq_false_iff_not, not_lt]
    constructor
    · rintro ⟨⟨⟨h1, h2⟩, h3⟩, h4⟩
      exact ⟨by linarith, by linarith, by linarith, by linarith⟩
    · rintro ⟨h1, h2, h3, h4⟩
      exact ⟨⟨⟨by linarith, by linarith⟩, by linarith⟩, by linarith⟩
  · intro shapes existing cw ch b hb
    unfold placeShape placeCompositeWithoutOverlap
    rw [hb]
    exact tryCandidates_first_fit shapes existing _ _ (candidates cw ch)

/-- Witness for C5 at a concrete group (one 10×10 rectangle at the origin)
on an empty canvas. -/
theorem placement_first_fit_C5_witness :
    computeBounds [mkRect 0 0 10 10 "#FF0000" 2] = some ⟨0, 0, 10, 10⟩ ∧
    ((∃ l₁ p l₂, candidates 800 600 = l₁ ++ p :: l₂ ∧
        (∀ q ∈ l₁, anyOverlap (translateComposite [mkRect 0 0 10 10 "#FF0000" 2]
          (q.1 - (0 + (10 - 0) / 2)) (q.2 - (0 + (10 - 0) / 2)))
          ([] : List ShapeData) = true) ∧
        anyOverlap (translateComposite [mkRect 0 0 10 10 "#FF0000" 2]
          (p.1 - (0 + (10 - 0) / 2)) (p.2 - (0 + (10 - 0) / 2)))
          ([] : List ShapeData) = false ∧
        placeShape [mkRect 0 0 10 10 "#FF0000" 2] [] 800 600 =
          translateComposite [mkRect 0 0 10 10 "#FF0000" 2]
            (p.1 - (0 + (10 - 0) / 2)) (p.2 - (0 + (10 - 0) / 2))) ∨
      ((∀ q ∈ candidates 800 600, anyOverlap
          (translateComposite [mkRect 0 0 10 10 "#FF0000" 2]
            (q.1 - (0 + (10 - 0) / 2)) (q.2 - (0 + (10 - 0) / 2)))
          ([] : List ShapeData) = true) ∧
        placeShape [mkRect 0 0 10 10 "#FF0000" 2] [] 800 600 =
          [mkRect 0 0 10 10 "#FF0000" 2])) := by
  have hcb : computeBounds [mkRect 0 0 10 10 "#FF0000" 2] =
      some ⟨0, 0, 10, 10⟩ := by
    simp [computeBounds, unionStep, getShapeBounds, mkRect, blank]
  exact ⟨hcb, placement_first_fit_C5.2.2 [mkRect 0 0 10 10 "#FF0000" 2] []
    800 600 ⟨0, 0, 10, 10⟩ hcb⟩

/-- Counterexample to C6 as stated: for a group whose union bounding box
is 1/2 × 1/2 (below the source's `Math.max(1, ...)` clamp), the source
normalizer and the claim's formula (raw bounding dimensions, true box
center) disagree — the line's end `x2` becomes 400 in the source but 550
under the claim's scale `min(300/(1/2), 300/(1/2)) = 600`. -/
theorem normalize_scale_C6_counterexample :
    (normalizeShapesToCanvas [mkLine 0 0 (1/2) (1/2) "#000000" 2 none]
      canvasOpts).map (fun s => s.x2) = [some 400] ∧
    (specNormalizeShapesToCanvas [mkLine 0 0 (1/2) (1/2) "#000000" 2 none]
      canvasOpts).map (fun s => s.x2) = [some 550] ∧
    normalizeShapesToCanvas [mkLine 0 0 (1/2) (1/2) "#000000" 2 none]
        canvasOpts ≠
      specNormalizeShapesToCanvas [mkLine 0 0 (1/2) (1/2) "#000000" 2 none]
        canvasOpts := by
  have hcb : computeBounds [mkLine 0 0 (1/2) (1/2) "#000000" 2 none] =
      some ⟨0, 0, 1/2, 1/2⟩ := by
    simp [computeBounds, unionStep, getShapeBounds, mkLine, blank]
  have h1 : (normalizeShapesToCanvas [mkLine 0 0 (1/2) (1/2) "#000000" 2 none]
      canvasOpts).map (fun s => s.x2) = [some 400] := by
    simp only [normalizeShapesToCanvas, hcb]
    norm_num +decide [normalizeShape, moveXY, scaleSize, mkLine, blank,
      canvasOpts, colorOrDefault, strokeWidthOrDefault, min_def, max_def]
  have h2 : (specNormalizeShapesToCanvas
      [mkLine 0 0 (1/2) (1/2) "#000000" 2 none] canvasOpts).map
      (fun s => s.x2) = [some 550] := by
    simp only [specNormalizeShapesToCanvas, hcb]
    norm_num +decide [normalizeShape, moveXY, scaleSize, mkLine, blank,
      canvasOpts, colorOrDefault, strokeWidthOrDefault, min_def, max_def]
  refine ⟨h1, h2, fun heq => ?_⟩
  rw [heq, h2] at h1
  norm_num at h1

/-- C6 amended: the normalizer returns the input unchanged when the union
bounding box is null; otherwise it applies the uniform scale factor
`min(target.w / max(1, boundingWidth), target.h / max(1, boundingHeight))`
(bounding dimensions clamped below at 1), maps `x`/`y` by
`(coord - center) * scale + destinationCenter` with the center computed
from the clamped extents, and multiplies size fields by the same factor
with a floor of 1; for a 100×50 bounding box and 300×300 target the factor
is `min(3, 6) = 3`. -/
theorem normalize_amended_C6 :
    (∀ (shapes : List ShapeData) (opts : NormOpts),
      computeBounds shapes = none →
        normalizeShapesToCanvas shapes opts = shapes) ∧
    (∀ (shapes : List ShapeData) (opts : NormOpts) (b : BBox),
      computeBounds shapes = some b →
        normalizeShapesToCanvas shapes opts = shapes.map (normalizeShape
          (b.minX + max 1 (b.maxX - b.minX) / 2)
          (b.minY + max 1 (b.maxY - b.minY) / 2)
          (min (opts.targetW / max 1 (b.maxX - b.minX))
               (opts.targetH / max 1 (b.maxY - b.minY)))
          opts.centerX opts.centerY)) ∧
    (∀ b : BBox, b.maxX - b.minX = 100 → b.maxY - b.minY = 50 →
      min ((300 : ℚ) / max 1 (b.maxX - b.minX))
          (300 / max 1 (b.maxY - b.minY)) = 3) ∧
    (∀ (cx cy sc tx ty : ℚ) (s : ShapeData) (xv yv : ℚ),
      s.x = some xv → s.y = some yv →
      (moveXY cx cy sc tx ty s).x = some ((xv - cx) * sc + tx) ∧
      (moveXY cx cy sc tx ty s).y = some ((yv - cy) * sc + ty)) ∧
    (∀ sc v : ℚ, scaleSize sc (some v) = some (max 1 (v * sc))) := by
  refine ⟨?_, ?_, ?_, ?_, fun _ _ => rfl⟩
  · intro shapes opts h
    simp [normalizeShapesToCanvas, h]
  · intro shapes opts b h
    simp [normalizeShapesToCanvas, h]
  · intro b h1 h2
    rw [h1, h2]
    norm_num [min_def, max_def]
  · intro cx cy sc tx ty s xv yv hx hy
    simp [moveXY, hx, hy]

/-- Witness for the amended C6 at a concrete 100×50 rectangle group. -/
theorem normalize_amended_C6_witness :
    computeBounds [mkRect 0 0 100 50 "#00FF00" 2] = some ⟨0, 0, 100, 50⟩ ∧
    normalizeShapesToCanvas [mkRect 0 0 100 50 "#00FF00" 2] canvasOpts =
      [mkRect 0 0 100 50 "#00FF00" 2].map (normalizeShape
        (0 + max 1 ((100 : ℚ) - 0) / 2) (0 + max 1 ((50 : ℚ) - 0) / 2)
        (min ((300 : ℚ) / max 1 (100 - 0)) ((300 : ℚ) / max 1 (50 - 0)))
        400 300) ∧
    min ((300 : ℚ) / max 1 ((100 : ℚ) - 0)) (300 / max 1 ((50 : ℚ) - 0)) = 3 := by
  have hcb : computeBounds [mkRect 0 0 100 50 "#00FF00" 2] =
      some ⟨0, 0, 100, 50⟩ := by
    simp [computeBounds, unionStep, getShapeBounds, mkRect, blank]
  refine ⟨hcb, ?_, normalize_amended_C6.2.2.1 ⟨0, 0, 100, 50⟩ (by norm_num)
    (by norm_num)⟩
  have := normalize_amended_C6.2.1 [mkRect 0 0 100 50 "#00FF00" 2]
    canvasOpts ⟨0, 0, 100, 50⟩ hcb
  simpa [canvasOpts] using this

lemma validShape_rect_fields (p : ShapeData) (h : validShape p = true)
    (ht : p.stype = some "rectangle" ∨ p.stype = some "triangle") :
    p.width.isSome = true ∧ p.height.isSome = true := by
  unfold validShape at h
  rcases ht with ht | ht <;> rw [ht] at h <;> simp [shapeTypes] at h <;>
    tauto

lemma validShape_circ_fields (p : ShapeData) (h : validShape p = true)
    (ht : p.stype = some "circle" ∨ p.stype = some "star") :
    p.radius.isSome = true := by
  unfold validShape at h
  rcases ht with ht | ht <;> rw [ht] at h <;> simp [shapeTypes] at h <;>
    tauto


lemma valid_normalized_positive (cx cy sc tx ty : ℚ) (t0 p : ShapeData)
    (hty : p.stype = (normalizeShape cx cy sc tx ty t0).stype)
    (hw : p.width = (normalizeShape cx cy sc tx ty t0).width)
    (hh : p.height = (normalizeShape cx cy sc tx ty t0).height)
    (hr : p.radius = (normalizeShape cx cy sc tx ty t0).radius)
    (hv : validShape p = true) :
    ((p.stype = some "rectangle" ∨ p.stype = some "triangle") →
      ∃ w h, p.width = some w ∧ p.height = some h ∧ 0 < w ∧ 0 < h) ∧
    ((p.stype = some "circle" ∨ p.stype = some "star") →
      ∃ r, p.radius = some r ∧ 0 < r) := by
  rw [normalizeShape_stype] at hty
  constructor
  · intro hrect
    have ht0ty : t0.stype = some "rectangle" ∨ t0.stype = some "triangle" := by
      rw [← hty]; exact hrect
    rw [normalizeShape_width_rect cx cy sc tx ty t0 ht0ty] at hw
    rw [normalizeShape_height_rect cx cy sc tx ty t0 ht0ty] at hh
    have hwsome := (validShape_rect_fields p hv hrect).1
    have hhsome := (validShape_rect_fields p hv hrect).2
    cases hw0 : t0.width with
    | none => rw [hw, hw0] at hwsome; simp [scaleSize] at hwsome
    | some w0 =>
      cases hh0 : t0.height with
      | none => rw [hh, hh0] at hhsome; simp [scaleSize] at hhsome
      | some h0 =>
        refine ⟨max 1 (w0 * sc), max 1 (h0 * sc), ?_, ?_, ?_, ?_⟩
        · rw [hw, hw0]; rfl
        · rw [hh, hh0]; rfl
        · exact lt_of_lt_of_le zero_lt_one (le_max_left 1 _)
        · exact lt_of_lt_of_le zero_lt_one (le_max_left 1 _)
  · intro hcirc
    have ht0ty : t0.stype = some "circle" ∨ t0.stype = some "star" := by
      rw [← hty]; exact hcirc
    rw [normalizeShape_radius_circ cx cy sc tx ty t0 ht0ty] at hr
    have hrsome := validShape_circ_fields p hv hcirc
    cases hr0 : t0.radius with
    | none => rw [hr, hr0] at hrsome; simp [scaleSize] at hrsome
    | some r0 =>
      refine ⟨max 1 (r0 * sc), ?_, ?_⟩
      · rw [hr, hr0]; rfl
      · exact lt_of_lt_of_le zero_lt_one (le_max_left 1 _)

/-- C1: the draw action of the (eviction-variant) executor persists only
shapes that pass per-shape validation — `createShape` receives exactly the
validated survivors, in order, with `color`/`strokeWidth` back-filled —
and every persisted shape's variant size fields are strictly positive:
width/height for rectangles and triangles, radius for circles and stars
(numeric fields are rationals in this embedding, hence finite).  The
positivity comes from normalization's `Math.max(1, ·)` floor, which every
validated shape has passed through. -/
theorem validated_shapes_positive_C1 :
    (∀ l : List ShapeData,
      createLoop l = (l.filter validShape).map addDefaults) ∧
    ∀ (oracleShapes : List ShapeData) (orig : Option (List Char))
      (existing : List ShapeData) (s : ShapeData),
      s ∈ (drawPipelineV1 oracleShapes orig existing).1 →
      ((s.stype = some "rectangle" ∨ s.stype = some "triangle") →
        ∃ w h, s.width = some w ∧ s.height = some h ∧ 0 < w ∧ 0 < h) ∧
      ((s.stype = some "circle" ∨ s.stype = some "star") →
        ∃ r, s.radius = some r ∧ 0 < r) := by
  refine ⟨createLoop_eq_filterMap, ?_⟩
  intro base orig existing s hs
  simp only [drawPipelineV1] at hs
  rw [createLoop_eq_filterMap] at hs
  obtain ⟨p, hpf, rfl⟩ := List.mem_map.mp hs
  obtain ⟨hpmem, hpvalid⟩ := List.mem_filter.mp hpf
  have hpb : (getShapeBounds p).isSome = true :=
    validShape_bounds_isSome p hpvalid
  obtain ⟨q, hqW, hqty, hqw, hqh, hqr, hqb⟩ :
      ∃ q ∈ normalizeShapesToCanvas (applyTemplateStage base orig) canvasOpts,
        p.stype = q.stype ∧ p.width = q.width ∧ p.height = q.height ∧
        p.radius = q.radius ∧ (getShapeBounds q).isSome = true := by
    rcases (placeOrEvict_spec
        (normalizeShapesToCanvas (applyTemplateStage base orig) canvasOpts)
        existing 800 600).2.2 with hpe | ⟨dx, dy, hpe⟩
    · rw [hpe] at hpmem
      exact ⟨p, hpmem, rfl, rfl, rfl, rfl, hpb⟩
    · rw [hpe] at hpmem
      obtain ⟨q, hqm, rfl⟩ := List.mem_map.mp hpmem
      refine ⟨q, hqm, translateShape_stype dx dy q, translateShape_width dx dy q,
        translateShape_height dx dy q, translateShape_radius dx dy q, ?_⟩
      rw [← getShapeBounds_translate_isSome dx dy q]
      exact hpb
  simp only [addDefaults_stype, addDefaults_width, addDefaults_height,
    addDefaults_radius]
  cases hcb : computeBounds (applyTemplateStage base orig) with
  | none =>
    exfalso
    have hWT : normalizeShapesToCanvas (applyTemplateStage base orig)
        canvasOpts = applyTemplateStage base orig := by
      simp [normalizeShapesToCanvas, hcb]
    rw [hWT] at hqW
    have hsome := computeBounds_isSome_of_mem _ q hqW hqb
    rw [hcb] at hsome
    simp at hsome
  | some b =>
    have hWm : normalizeShapesToCanvas (applyTemplateStage base orig)
        canvasOpts = (applyTemplateStage base orig).map (normalizeShape
          (b.minX + max 1 (b.maxX - b.minX) / 2)
          (b.minY + max 1 (b.maxY - b.minY) / 2)
          (min (canvasOpts.targetW / max 1 (b.maxX - b.minX))
               (canvasOpts.targetH / max 1 (b.maxY - b.minY)))
          canvasOpts.centerX canvasOpts.centerY) := by
      simp [normalizeShapesToCanvas, hcb]
    rw [hWm] at hqW
    obtain ⟨t0, ht0, rfl⟩ := List.mem_map.mp hqW
    exact valid_normalized_positive _ _ _ _ _ t0 p hqty hqw hqh hqr hpvalid

/-- Witness for C1: one oracle circle, drawn on an empty canvas, is
persisted at the first candidate with radius 150 > 0. -/
theorem validated_shapes_positive_C1_witness :
    ∃ r, (⟨some "circle", some 160, some 120, none, none, some 150, none,
      none, some "#0000FF", some 2, none⟩ : ShapeData).radius = some r ∧
      0 < r := by
  have hmem : (⟨some "circle", some 160, some 120, none, none, some 150, none,
      none, some "#0000FF", some 2, none⟩ : ShapeData) ∈
      (drawPipelineV1 [mkCircle 100 100 50 "#0000FF" 2] none []).1 := by
    have hlist : (drawPipelineV1 [mkCircle 100 100 50 "#0000FF" 2] none []).1 =
        [⟨some "circle", some 160, some 120, none, none, some 150, none, none,
          some "#0000FF", some 2, none⟩] := by
      norm_num +decide [drawPipelineV1, applyTemplateStage,
        normalizeShapesToCanvas, computeBounds, unionStep, getShapeBounds,
        mkCircle, blank, canvasOpts, normalizeShape, moveXY, scaleSize,
        colorOrDefault, strokeWidthOrDefault, placeOrEvict,
        placeCompositeWithoutOverlap, candidates, tryCandidates,
        translateComposite, translateShape, shiftOpt, anyOverlap, rectsOverlap,
        createLoop, validShape, addDefaults, shapeTypes, min_def, max_def,
        List.range]
    rw [hlist]
    exact List.mem_singleton.mpr rfl
  exact (validated_shapes_positive_C1.2 [mkCircle 100 100 50 "#0000FF" 2]
    none [] _ hmem).2 (Or.inl rfl)

end Canvas

namespace Groq

/-! ## Digit rendering round-trips through the parser -/

lemma charIsDigit_digitChar (d : Nat) (h : d < 10) :
    charIsDigit (Char.ofNat (48 + d)) = true := by
  interval_cases d <;> decide

lemma digitVal_digitChar (d : Nat) (h : d < 10) :
    digitVal (Char.ofNat (48 + d)) = d := by
  interval_cases d <;> decide

lemma natToRevDigits_spec :
    ∀ n : Nat,
      (natToRevDigits n).foldr (fun c a => 10 * a + digitVal c) 0 = n ∧
      ∀ c ∈ natToRevDigits n, charIsDigit c = true := by
  intro n
  induction n using Nat.strong_induction_on with
  | _ n ih =>
    by_cases h0 : n = 0
    · subst h0
      constructor
      · simp [natToRevDigits]
      · intro c hc
        simp [natToRevDigits] at hc
    · have hlt : n / 10 < n :=
        Nat.div_lt_self (Nat.pos_of_ne_zero h0) (by norm_num)
      obtain ⟨ihv, ihd⟩ := ih (n / 10) hlt
      have hmod : n % 10 < 10 := Nat.mod_lt n (by norm_num)
      constructor
      · rw [natToRevDigits]
        simp only [dif_neg h0, List.foldr_cons]
        rw [ihv, digitVal_digitChar _ hmod]
        omega
      · intro c hc
        rw [natToRevDigits] at hc
        simp only [dif_neg h0, List.mem_cons] at hc
        rcases hc with rfl | hc
        · exact charIsDigit_digitChar _ hmod
        · exact ihd c hc

lemma digitsVal_reverse (l : List Char) :
    digitsVal l.reverse = l.foldr (fun c a => 10 * a + digitVal c) 0 := by
  simp [digitsVal, List.foldl_reverse]

lemma digitsVal_natDigits (n : Nat) : digitsVal (natDigits n) = n := by
  by_cases h0 : n = 0
  · subst h0; decide
  · simp only [natDigits, if_neg h0]
    rw [digitsVal_reverse]
    exact (natToRevDigits_spec n).1

lemma natDigits_all_digits (n : Nat) :
    ∀ c ∈ natDigits n, charIsDigit c = true := by
  by_cases h0 : n = 0
  · subst h0; intro c hc; simp [natDigits] at hc; subst hc; decide
  · intro c hc
    simp only [natDigits, if_neg h0, List.mem_reverse] at hc
    exact (natToRevDigits_spec n).2 c hc

lemma natDigits_ne_nil (n : Nat) : natDigits n ≠ [] := by
  by_cases h0 : n = 0
  · subst h0; decide
  · intro h
    have := (natToRevDigits_spec n).1
    simp only [natDigits, if_neg h0] at h
    rw [List.reverse_eq_nil_iff] at h
    rw [h] at this
    exact h0 this.symm

lemma takeWhile_digits_append (ds rest : List Char)
    (hds : ∀ c ∈ ds, charIsDigit c = true)
    (hrest : ∀ c, rest.head? = some c → charIsDigit c = false) :
    (ds ++ rest).takeWhile charIsDigit = ds ∧
    (ds ++ rest).dropWhile charIsDigit = rest := by
  induction ds with
  | nil =>
    simp only [List.nil_append]
    cases rest with
    | nil => exact ⟨rfl, rfl⟩
    | cons c r =>
      have hc : charIsDigit c = false := hrest c rfl
      simp [List.takeWhile_cons, List.dropWhile_cons, hc]
  | cons d ds ih =>
    have hd : charIsDigit d = true := hds d (List.mem_cons_self d ds)
    obtain ⟨iht, ihd⟩ := ih fun c hc => hds c (List.mem_cons_of_mem d hc)
    simp [List.takeWhile_cons, List.dropWhile_cons, hd, iht, ihd]

lemma charIsDigit_ne_minus (c : Char) (h : charIsDigit c = true) :
    (c = '-') = False := by
  simp only [eq_iff_iff, iff_false]
  intro heq
  subst heq
  simp [charIsDigit] at h

lemma parseNum_serialize (n : Int) (rest : List Char)
    (hrest : ∀ c, rest.head? = some c → charIsDigit c = false) :
    parseNum (serializeInt n ++ rest) = some (n, rest) := by
  obtain ⟨htake, hdrop⟩ := takeWhile_digits_append (natDigits n.natAbs) rest
    (natDigits_all_digits n.natAbs) hrest
  by_cases hneg : n < 0
  · have hser : serializeInt n ++ rest = '-' :: (natDigits n.natAbs ++ rest) := by
      simp [serializeInt, if_pos hneg]
    rw [hser]
    simp only [parseNum, if_pos rfl]
    rw [htake, hdrop, if_neg (natDigits_ne_nil n.natAbs),
      digitsVal_natDigits]
    have hn : -((n.natAbs : Int)) = n := by omega
    rw [hn]
    simp
  · obtain ⟨d, ds', hcons⟩ :=
      List.exists_cons_of_ne_nil (natDigits_ne_nil n.natAbs)
    have hd : charIsDigit d = true := by
      apply natDigits_all_digits n.natAbs
      rw [hcons]
      exact List.mem_cons_self d ds'
    have hser : serializeInt n ++ rest = d :: (ds' ++ rest) := by
      simp [serializeInt, if_neg hneg, hcons]
    rw [hser]
    have hdm : (d = '-') = False := charIsDigit_ne_minus d hd
    simp only [parseNum, hdm, if_false]
    have hlist : d :: (ds' ++ rest) = natDigits n.natAbs ++ rest := by
      rw [hcons]
      rfl
    rw [hlist, htake, hdrop, if_neg (natDigits_ne_nil n.natAbs),
      digitsVal_natDigits]
    have hn : ((n.natAbs : Int)) = n := by omega
    rw [hn]

/-! ## String literals round-trip through the parser -/

lemma parseStringBody_escape :
    ∀ (s acc rest : List Char),
      parseStringBody (escapeChars s ++ (dquote :: rest)) acc =
        some (acc.reverse ++ s, rest) := by
  intro s
  induction s with
  | nil =>
    intro acc rest
    have h0 : escapeChars [] = [] := rfl
    rw [h0, List.nil_append, parseStringBody.eq_def]
    simp
  | cons c s ih =>
    intro acc rest
    have hstep : escapeChars (c :: s) = escapeChar c ++ escapeChars s := by
      simp [escapeChars]
    rw [hstep, List.append_assoc]
    by_cases hc : c = dquote ∨ c = bslash
    · have hun : unescape c = some c := by
        rcases hc with rfl | rfl <;> simp [unescape, dquote, bslash]
      have hne : (bslash = dquote) = False := by simp [dquote, bslash]
      have hesc : escapeChar c = [bslash, c] := by simp [escapeChar, hc]
      rw [hesc, List.cons_append, List.cons_append, List.nil_append,
        parseStringBody.eq_def]
      simp only [hne, if_false, if_pos rfl, hun]
      rw [ih (c :: acc) rest]
      simp
    · push_neg at hc
      obtain ⟨hcd, hcb⟩ := hc
      have hesc : escapeChar c = [c] := by simp [escapeChar, hcd, hcb]
      rw [hesc, List.cons_append, List.nil_append, parseStringBody.eq_def]
      simp only [if_neg hcd, if_neg hcb]
      rw [ih (c :: acc) rest]
      simp

/-! ## Leading characters of serialized values -/

lemma skipWs_cons_of_not_ws (c : Char) (l : List Char)
    (h : isJsonWs c = false) : skipWs (c :: l) = c :: l := by
  simp [skipWs, List.dropWhile_cons, h]

lemma charIsDigit_not_ws (c : Char) (h : charIsDigit c = true) :
    isJsonWs c = false := by
  by_contra hws
  rw [Bool.not_eq_false] at hws
  have : c = ' ' ∨ c = '\t' ∨ c = '\n' ∨ c = '\r' := by
    simpa [isJsonWs] using hws
  rcases this with rfl | rfl | rfl | rfl <;> simp [charIsDigit] at h

lemma serializeInt_head_not_ws (n : Int) :
    ∃ c cs, serializeInt n = c :: cs ∧ isJsonWs c = false ∧
      (c = '-' ∨ charIsDigit c = true) := by
  by_cases hneg : n < 0
  · exact ⟨'-', natDigits n.natAbs, by simp [serializeInt, hneg], by decide,
      Or.inl rfl⟩
  · obtain ⟨d, ds', hcons⟩ :=
      List.exists_cons_of_ne_nil (natDigits_ne_nil n.natAbs)
    have hd : charIsDigit d = true := by
      apply natDigits_all_digits n.natAbs
      rw [hcons]
      exact List.mem_cons_self d ds'
    exact ⟨d, ds', by simp [serializeInt, hneg, hcons],
      charIsDigit_not_ws d hd, Or.inr hd⟩

lemma expectLit_append (lit rest : List Char) :
    expectLit lit (lit ++ rest) = some rest := by
  have hpre : lit.isPrefixOf (lit ++ rest) = true := by
    induction lit with
    | nil => simp [List.isPrefixOf]
    | cons c l ih => simp [List.isPrefixOf, ih]
  simp [expectLit, hpre]

/-! ## Serialized values parse back (round trip) -/

lemma parseStep_null (f : Nat) (rest : List Char) :
    parseStep (f + 1) 0 (serializeJson .null ++ rest) =
      some (.pv .null, rest) := by
  have h1 : serializeJson .null ++ rest = 'n' :: 'u' :: 'l' :: 'l' :: rest := by
    have h : serializeJson .null = ['n', 'u', 'l', 'l'] := by
      simp [serializeJson]
    rw [h]
    rfl
  have hskip : skipWs ('n' :: 'u' :: 'l' :: 'l' :: rest) =
      'n' :: 'u' :: 'l' :: 'l' :: rest := skipWs_cons_of_not_ws _ _ (by decide)
  have hexp : expectLit ("ull".data) ('u' :: 'l' :: 'l' :: rest) = some rest :=
    expectLit_append ("ull".data) rest
  rw [h1]
  simp +decide [parseStep, hskip, hexp]

lemma parseStep_true (f : Nat) (rest : List Char) :
    parseStep (f + 1) 0 (serializeJson (.bool true) ++ rest) =
      some (.pv (.bool true), rest) := by
  have h1 : serializeJson (.bool true) ++ rest =
      't' :: 'r' :: 'u' :: 'e' :: rest := by
    have h : serializeJson (.bool true) = ['t', 'r', 'u', 'e'] := by
      simp [serializeJson]
    rw [h]
    rfl
  have hskip : skipWs ('t' :: 'r' :: 'u' :: 'e' :: rest) =
      't' :: 'r' :: 'u' :: 'e' :: rest := skipWs_cons_of_not_ws _ _ (by decide)
  have hexp : expectLit ("rue".data) ('r' :: 'u' :: 'e' :: rest) = some rest :=
    expectLit_append ("rue".data) rest
  rw [h1]
  simp +decide [parseStep, hskip, hexp]

lemma parseStep_false (f : Nat) (rest : List Char) :
    parseStep (f + 1) 0 (serializeJson (.bool false) ++ rest) =
      some (.pv (.bool false), rest) := by
  have h1 : serializeJson (.bool false) ++ rest =
      'f' :: 'a' :: 'l' :: 's' :: 'e' :: rest := by
    have h : serializeJson (.bool false) = ['f', 'a', 'l', 's', 'e'] := by
      simp [serializeJson]
    rw [h]
    rfl
  have hskip : skipWs ('f' :: 'a' :: 'l' :: 's' :: 'e' :: rest) =
      'f' :: 'a' :: 'l' :: 's' :: 'e' :: rest :=
    skipWs_cons_of_not_ws _ _ (by decide)
  have hexp : expectLit ("alse".data) ('a' :: 'l' :: 's' :: 'e' :: rest) =
      some rest := expectLit_append ("alse".data) rest
  rw [h1]
  simp +decide [parseStep, hskip, hexp]

lemma charIsDigit_not_starters (c : Char) (h : charIsDigit c = true) :
    (c = dquote) = False ∧ (c = lbrace) = False ∧ (c = '[') = False ∧
    (c = 'n') = False ∧ (c = 't') = False ∧ (c = 'f') = False := by
  refine ⟨?_, ?_, ?_, ?_, ?_, ?_⟩ <;>
    (simp only [eq_iff_iff, iff_false]; intro heq; subst heq; revert h; decide)

lemma parseStep_num (f : Nat) (n : Int) (rest : List Char)
    (hrest : ∀ c, rest.head? = some c → charIsDigit c = false) :
    parseStep (f + 1) 0 (serializeJson (.num n) ++ rest) =
      some (.pv (.num n), rest) := by
  obtain ⟨c, cs, hser, hws, hcd⟩ := serializeInt_head_not_ws n
  have h1 : serializeJson (.num n) ++ rest = c :: (cs ++ rest) := by
    have h : serializeJson (.num n) = serializeInt n := by
      simp [serializeJson]
    rw [h, hser]
    rfl
  have hskip : skipWs (c :: (cs ++ rest)) = c :: (cs ++ rest) :=
    skipWs_cons_of_not_ws _ _ hws
  have hnum : parseNum (c :: (cs ++ rest)) = some (n, rest) := by
    have hl : c :: (cs ++ rest) = serializeInt n ++ rest := by
      rw [hser]
      rfl
    rw [hl]
    exact parseNum_serialize n rest hrest
  rw [h1]
  rcases hcd with rfl | hdig
  · simp +decide [parseStep, hskip, hnum]
  · obtain ⟨hq, hb, hk, hn, ht, hf⟩ := charIsDigit_not_starters c hdig
    simp [parseStep, hskip, hnum, hq, hb, hk, hn, ht, hf, hdig]

lemma parseStep_str (f : Nat) (s rest : List Char) :
    parseStep (f + 1) 0 (serializeJson (.str s) ++ rest) =
      some (.pv (.str s), rest) := by
  have h1 : serializeJson (.str s) ++ rest =
      dquote :: (escapeChars s ++ (dquote :: rest)) := by
    have h : serializeJson (.str s) = dquote :: (escapeChars s ++ [dquote]) := by
      simp [serializeJson, serializeStr]
    rw [h]
    simp
  have hskip : skipWs (dquote :: (escapeChars s ++ (dquote :: rest))) =
      dquote :: (escapeChars s ++ (dquote :: rest)) :=
    skipWs_cons_of_not_ws _ _ (by decide)
  have hbody := parseStringBody_escape s [] rest
  rw [h1]
  simp [parseStep, hskip, hbody]

lemma charIsDigit_not_closers (c : Char) (h : charIsDigit c = true) :
    (c = ']') = False ∧ (c = rbrace) = False := by
  refine ⟨?_, ?_⟩ <;>
    (simp only [eq_iff_iff, iff_false]; intro heq; subst heq; revert h; decide)

lemma serializeJson_head (j : Json) :
    ∃ c cs, serializeJson j = c :: cs ∧ isJsonWs c = false ∧
      (c = ']') = False ∧ (c = rbrace) = False := by
  cases j with
  | null =>
    refine ⟨'n', "ull".data, ?_, by decide, by decide, by decide⟩
    simp [serializeJson]
  | bool b =>
    cases b with
    | true =>
      refine ⟨'t', "rue".data, ?_, by decide, by decide, by decide⟩
      simp [serializeJson]
    | false =>
      refine ⟨'f', "alse".data, ?_, by decide, by decide, by decide⟩
      simp [serializeJson]
  | num n =>
    obtain ⟨c, cs, hser, hws, hcd⟩ := serializeInt_head_not_ws n
    refine ⟨c, cs, ?_, hws, ?_, ?_⟩
    · simp [serializeJson, hser]
    · rcases hcd with rfl | hdig
      · decide
      · exact (charIsDigit_not_closers c hdig).1
    · rcases hcd with rfl | hdig
      · decide
      · exact (charIsDigit_not_closers c hdig).2
  | str s =>
    refine ⟨dquote, escapeChars s ++ [dquote], ?_, by decide, by decide,
      by decide⟩
    simp [serializeJson, serializeStr]
  | arr l =>
    refine ⟨'[', serializeElems l ++ [']'], ?_, by decide, by decide,
      by decide⟩
    simp [serializeJson]
  | obj f =>
    refine ⟨lbrace, serializeFields f ++ [rbrace], ?_, by decide, by decide,
      by decide⟩
    simp [serializeJson]

mutual

theorem parseStep_serialize_val :
    ∀ (j : Json) (fuel : Nat), sizeJ j ≤ fuel →
      ∀ rest : List Char,
      (∀ c, rest.head? = some c → charIsDigit c = false) →
      parseStep fuel 0 (serializeJson j ++ rest) = some (.pv j, rest)
  | .null, fuel, hf, rest, _ => by
    cases fuel with
    | zero => simp [sizeJ] at hf
    | succ f => exact parseStep_null f rest
  | .bool true, fuel, hf, rest, _ => by
    cases fuel with
    | zero => simp [sizeJ] at hf
    | succ f => exact parseStep_true f rest
  | .bool false, fuel, hf, rest, _ => by
    cases fuel with
    | zero => simp [sizeJ] at hf
    | succ f => exact parseStep_false f rest
  | .num n, fuel, hf, rest, hrest => by
    cases fuel with
    | zero => simp [sizeJ] at hf
    | succ f => exact parseStep_num f n rest hrest
  | .str s, fuel, hf, rest, _ => by
    cases fuel with
    | zero => simp [sizeJ] at hf
    | succ f => exact parseStep_str f s rest
  | .arr l, fuel, hf, rest, _ => by
    cases fuel with
    | zero => simp [sizeJ] at hf
    | succ f =>
      cases l with
      | nil =>
        have h1 : serializeJson (.arr .nil) ++ rest = '[' :: ']' :: rest := by
          have h : serializeJson (.arr .nil) = ['[', ']'] := by
            simp [serializeJson, serializeElems]
          rw [h]
          rfl
        have hskip : skipWs (']' :: rest) = ']' :: rest :=
          skipWs_cons_of_not_ws _ _ (by decide)
        have hskip0 : skipWs ('[' :: ']' :: rest) = '[' :: ']' :: rest :=
          skipWs_cons_of_not_ws _ _ (by decide)
        rw [h1]
        simp +decide [parseStep, hskip, hskip0]
      | cons hd tl =>
        obtain ⟨c, cs, hser, hws, hne1, _⟩ := serializeJson_head hd
        obtain ⟨Y, hY⟩ : ∃ Y, serializeElems (.cons hd tl) = c :: Y := by
          cases tl with
          | nil => exact ⟨cs, by simp [serializeElems, hser]⟩
          | cons hd2 tl2 =>
            exact ⟨cs ++ ',' :: serializeElems (.cons hd2 tl2),
              by simp [serializeElems, hser]⟩
        have h1 : serializeJson (.arr (.cons hd tl)) ++ rest =
            '[' :: (c :: (Y ++ (']' :: rest))) := by
          have h : serializeJson (.arr (.cons hd tl)) =
              '[' :: (serializeElems (.cons hd tl) ++ [']']) := by
            simp [serializeJson]
          rw [h, hY]
          simp
        have hskip0 : skipWs ('[' :: (c :: (Y ++ (']' :: rest)))) =
            '[' :: (c :: (Y ++ (']' :: rest))) :=
          skipWs_cons_of_not_ws _ _ (by decide)
        have hskip1 : skipWs (c :: (Y ++ (']' :: rest))) =
            c :: (Y ++ (']' :: rest)) := skipWs_cons_of_not_ws _ _ hws
        have hrec : parseStep f 1 (c :: (Y ++ (']' :: rest))) =
            some (.pl (.cons hd tl), rest) := by
          have hl : c :: (Y ++ (']' :: rest)) =
              serializeElems (.cons hd tl) ++ (']' :: rest) := by
            rw [hY]
            rfl
          rw [hl]
          exact parseStep_serialize_elems (.cons hd tl) f (by simp)
            (by simp [sizeJ] at hf; omega) rest
        rw [h1]
        simp +decide [parseStep, hskip0, hskip1, hne1, hrec]
  | .obj f0, fuel, hf, rest, _ => by
    cases fuel with
    | zero => simp [sizeJ] at hf
    | succ f =>
      cases f0 with
      | nil =>
        have h1 : serializeJson (.obj .nil) ++ rest =
            lbrace :: rbrace :: rest := by
          have h : serializeJson (.obj .nil) = [lbrace, rbrace] := by
            simp [serializeJson, serializeFields]
          rw [h]
          rfl
        have hskip : skipWs (rbrace :: rest) = rbrace :: rest :=
          skipWs_cons_of_not_ws _ _ (by decide)
        have hskip0 : skipWs (lbrace :: rbrace :: rest) =
            lbrace :: rbrace :: rest := skipWs_cons_of_not_ws _ _ (by decide)
        rw [h1]
        simp +decide [parseStep, hskip, hskip0]
      | cons k v tl =>
        have h1 : serializeJson (.obj (.cons k v tl)) ++ rest =
            lbrace :: (dquote :: (escapeChars k ++ (dquote :: (':' ::
              (serializeJson v ++ (serializeFieldsTail tl ++
                (rbrace :: rest))))))) := by
          have h : serializeJson (.obj (.cons k v tl)) =
              lbrace :: (serializeFields (.cons k v tl) ++ [rbrace]) := by
            simp [serializeJson]
          rw [h]
          cases tl <;> simp [serializeFields, serializeStr,
            serializeFieldsTail]
        rw [h1]
        have hskip0 : skipWs (lbrace :: (dquote :: (escapeChars k ++
            (dquote :: (':' :: (serializeJson v ++ (serializeFieldsTail tl ++
              (rbrace :: rest)))))))) = lbrace :: (dquote :: (escapeChars k ++
            (dquote :: (':' :: (serializeJson v ++ (serializeFieldsTail tl ++
              (rbrace :: rest))))))) := skipWs_cons_of_not_ws _ _ (by decide)
        have hskip1 : skipWs (dquote :: (escapeChars k ++ (dquote :: (':' ::
            (serializeJson v ++ (serializeFieldsTail tl ++
              (rbrace :: rest))))))) = dquote :: (escapeChars k ++ (dquote ::
            (':' :: (serializeJson v ++ (serializeFieldsTail tl ++
              (rbrace :: rest)))))) := skipWs_cons_of_not_ws _ _ (by decide)
        have hrec : parseStep f 2 (dquote :: (escapeChars k ++ (dquote ::
            (':' :: (serializeJson v ++ (serializeFieldsTail tl ++
              (rbrace :: rest))))))) = some (.pf (.cons k v tl), rest) := by
          have hl : dquote :: (escapeChars k ++ (dquote :: (':' ::
              (serializeJson v ++ (serializeFieldsTail tl ++
                (rbrace :: rest)))))) =
              serializeFields (.cons k v tl) ++ (rbrace :: rest) := by
            cases tl <;> simp [serializeFields, serializeStr,
              serializeFieldsTail]
          rw [hl]
          exact parseStep_serialize_fields (.cons k v tl) f (by simp)
            (by simp [sizeJ] at hf; omega) rest
        simp +decide [parseStep, hskip0, hskip1, hrec]

theorem parseStep_serialize_elems :
    ∀ (l : JsonList) (fuel : Nat), l ≠ .nil → sizeL l ≤ fuel →
      ∀ rest : List Char,
      parseStep fuel 1 (serializeElems l ++ (']' :: rest)) =
        some (.pl l, rest)
  | .nil, _, hne, _, _ => (hne rfl).elim
  | .cons hd tl, fuel, _, hf, rest => by
    cases fuel with
    | zero => simp [sizeL] at hf
    | succ f =>
      cases tl with
      | nil =>
        have h1 : serializeElems (.cons hd .nil) ++ (']' :: rest) =
            serializeJson hd ++ (']' :: rest) := by
          simp [serializeElems]
        have hv := parseStep_serialize_val hd f
          (by simp [sizeL] at hf; omega) (']' :: rest)
          (by intro c hc; simp at hc; subst hc; decide)
        have hskip : skipWs (']' :: rest) = ']' :: rest :=
          skipWs_cons_of_not_ws _ _ (by decide)
        rw [h1]
        simp +decide [parseStep, hv, hskip]
      | cons hd2 tl2 =>
        have h1 : serializeElems (.cons hd (.cons hd2 tl2)) ++ (']' :: rest) =
            serializeJson hd ++
              (',' :: (serializeElems (.cons hd2 tl2) ++ (']' :: rest))) := by
          simp [serializeElems]
        have hv := parseStep_serialize_val hd f
          (by simp [sizeL] at hf; omega)
          (',' :: (serializeElems (.cons hd2 tl2) ++ (']' :: rest)))
          (by intro c hc; simp at hc; subst hc; decide)
        have hskip : skipWs
            (',' :: (serializeElems (.cons hd2 tl2) ++ (']' :: rest))) =
            ',' :: (serializeElems (.cons hd2 tl2) ++ (']' :: rest)) :=
          skipWs_cons_of_not_ws _ _ (by decide)
        have hrec := parseStep_serialize_elems (.cons hd2 tl2) f (by simp)
          (by simp [sizeL] at hf ⊢; omega) rest
        rw [h1]
        simp +decide [parseStep, hv, hskip, hrec]

theorem parseStep_serialize_fields :
    ∀ (f0 : JsonFields) (fuel : Nat), f0 ≠ .nil → sizeF f0 ≤ fuel →
      ∀ rest : List Char,
      parseStep fuel 2 (serializeFields f0 ++ (rbrace :: rest)) =
        some (.pf f0, rest)
  | .nil, _, hne, _, _ => (hne rfl).elim
  | .cons k v tl, fuel, _, hf, rest => by
    cases fuel with
    | zero => simp [sizeF] at hf
    | succ f =>
      have h1 : serializeFields (.cons k v tl) ++ (rbrace :: rest) =
          dquote :: (escapeChars k ++ (dquote ::
            (':' :: (serializeJson v ++
              (serializeFieldsTail tl ++ (rbrace :: rest)))))) := by
        cases tl <;> simp [serializeFields, serializeStr,
          serializeFieldsTail]
      have hskip0 : skipWs (dquote :: (escapeChars k ++ (dquote ::
          (':' :: (serializeJson v ++ (serializeFieldsTail tl ++
            (rbrace :: rest))))))) = dquote :: (escapeChars k ++ (dquote ::
          (':' :: (serializeJson v ++ (serializeFieldsTail tl ++
            (rbrace :: rest)))))) := skipWs_cons_of_not_ws _ _ (by decide)
      have hbody := parseStringBody_escape k []
        (':' :: (serializeJson v ++ (serializeFieldsTail tl ++
          (rbrace :: rest))))
      have hskip1 : skipWs (':' :: (serializeJson v ++
          (serializeFieldsTail tl ++ (rbrace :: rest)))) =
          ':' :: (serializeJson v ++ (serializeFieldsTail tl ++
            (rbrace :: rest))) := skipWs_cons_of_not_ws _ _ (by decide)
      cases tl with
      | nil =>
        have hv := parseStep_serialize_val v f
          (by simp [sizeF] at hf; omega) (rbrace :: rest)
          (by intro c hc; simp at hc; subst hc; decide)
        have hskip2 : skipWs (rbrace :: rest) = rbrace :: rest :=
          skipWs_cons_of_not_ws _ _ (by decide)
        simp only [serializeFieldsTail, List.nil_append] at h1 hskip0
        simp only [serializeFieldsTail, List.nil_append] at hbody hskip1
        rw [h1]
        simp +decide [parseStep, hskip0, hbody, hskip1, hv, hskip2]
      | cons k2 v2 tl2 =>
        have hv := parseStep_serialize_val v f
          (by simp [sizeF] at hf; omega)
          (serializeFieldsTail (.cons k2 v2 tl2) ++ (rbrace :: rest))
          (by intro c hc; simp [serializeFieldsTail] at hc; subst hc; decide)
        have hstep2 : serializeFieldsTail (.cons k2 v2 tl2) ++
            (rbrace :: rest) = ',' :: (serializeFields (.cons k2 v2 tl2) ++
              (rbrace :: rest)) := by
          simp [serializeFieldsTail]
        have hskip2 : skipWs (',' :: (serializeFields (.cons k2 v2 tl2) ++
            (rbrace :: rest))) = ',' :: (serializeFields (.cons k2 v2 tl2) ++
              (rbrace :: rest)) := skipWs_cons_of_not_ws _ _ (by decide)
        have hrec := parseStep_serialize_fields (.cons k2 v2 tl2) f (by simp)
          (by simp [sizeF] at hf ⊢; omega) rest
        simp only [hstep2] at h1 hskip0 hbody hskip1 hv
        rw [h1]
        simp +decide [parseStep, hskip0, hbody, hskip1, hv, hskip2, hrec]

end

lemma natDigits_length_pos (n : Nat) : 0 < (natDigits n).length :=
  List.length_pos.mpr (natDigits_ne_nil n)

lemma serializeInt_length_pos (n : Int) : 0 < (serializeInt n).length := by
  unfold serializeInt
  split
  · simp
  · exact natDigits_length_pos _

mutual

theorem sizeJ_le : ∀ j : Json, sizeJ j ≤ (serializeJson j).length
  | .null => by simp [sizeJ, serializeJson]
  | .bool true => by simp [sizeJ, serializeJson]
  | .bool false => by simp [sizeJ, serializeJson]
  | .num n => by
    have h := serializeInt_length_pos n
    simp [sizeJ, serializeJson]
    omega
  | .str s => by simp [sizeJ, serializeJson, serializeStr]
  | .arr l => by
    have h := sizeL_le l
    simp [sizeJ, serializeJson]
    omega
  | .obj f => by
    have h := sizeF_le f
    simp [sizeJ, serializeJson]
    omega

theorem sizeL_le : ∀ l : JsonList, sizeL l ≤ (serializeElems l).length + 1
  | .nil => by simp [sizeL, serializeElems]
  | .cons hd tl => by
    have h1 := sizeJ_le hd
    cases tl with
    | nil => simp [sizeL, serializeElems]; omega
    | cons hd2 tl2 =>
      have h2 := sizeL_le (.cons hd2 tl2)
      simp [sizeL, serializeElems] at h2 ⊢
      omega

theorem sizeF_le : ∀ f : JsonFields, sizeF f ≤ (serializeFields f).length + 1
  | .nil => by simp [sizeF, serializeFields]
  | .cons k v tl => by
    have h1 := sizeJ_le v
    cases tl with
    | nil => simp [sizeF, serializeFields, serializeStr]; omega
    | cons k2 v2 tl2 =>
      have h2 := sizeF_le (.cons k2 v2 tl2)
      simp [sizeF, serializeFields, serializeStr] at h2 ⊢
      omega

end

/-- Round trip: the parser inverts the serializer. -/
theorem jsonParse_serialize (j : Json) :
    jsonParse (serializeJson j) = some j := by
  unfold jsonParse parseVal
  have h := parseStep_serialize_val j ((serializeJson j).length + 1)
    (le_trans (sizeJ_le j) (Nat.le_succ _)) []
    (by intro c hc; simp at hc)
  rw [List.append_nil] at h
  simp [h, skipWs]

lemma charIsDigit_not_scan (c : Char) (h : charIsDigit c = true) :
    c ≠ dquote ∧ c ≠ lbrace ∧ c ≠ rbrace := by
  refine ⟨?_, ?_, ?_⟩ <;> intro he <;> subst he <;> exact absurd h (by decide)

lemma serializeInt_plain (n : Int) :
    ∀ c ∈ serializeInt n, c ≠ dquote ∧ c ≠ lbrace ∧ c ≠ rbrace := by
  intro c hc
  have hdig := natDigits_all_digits n.natAbs
  unfold serializeInt at hc
  split at hc
  · rcases List.mem_cons.mp hc with h | h
    · subst h; exact ⟨by decide, by decide, by decide⟩
    · exact charIsDigit_not_scan c (hdig c h)
  · exact charIsDigit_not_scan c (hdig c hc)

lemma extractScan_plain :
    ∀ (chunk : List Char),
      (∀ c ∈ chunk, c ≠ dquote ∧ c ≠ lbrace ∧ c ≠ rbrace) →
      ∀ (candRev rest : List Char) (d : Int),
      extractScan candRev d false false (chunk ++ rest) =
        extractScan (chunk.reverse ++ candRev) d false false rest
  | [], _ => by intro candRev rest d; simp
  | c :: tl, h => by
    intro candRev rest d
    obtain ⟨h1, h2, h3⟩ := h c (by simp)
    have ih := extractScan_plain tl
      (fun x hx => h x (List.mem_cons_of_mem c hx)) (c :: candRev) rest d
    simp [extractScan, h1, h2, h3, ih]

lemma extractScan_stringBody :
    ∀ (s : List Char) (candRev rest : List Char) (d : Int),
      extractScan candRev d true false (escapeChars s ++ rest) =
        extractScan ((escapeChars s).reverse ++ candRev) d true false rest
  | [], candRev, rest, d => by simp [escapeChars]
  | c :: tl, candRev, rest, d => by
    by_cases hc : c = dquote ∨ c = bslash
    · have hchunk : escapeChars (c :: tl) = bslash :: c :: escapeChars tl := by
        simp [escapeChars, escapeChar, hc]
      have ih := extractScan_stringBody tl (c :: bslash :: candRev) rest d
      rw [hchunk]
      simp +decide [extractScan, ih]
    · push_neg at hc
      have hchunk : escapeChars (c :: tl) = c :: escapeChars tl := by
        simp [escapeChars, escapeChar, hc.1, hc.2]
      have ih := extractScan_stringBody tl (c :: candRev) rest d
      rw [hchunk]
      simp [extractScan, hc.1, hc.2, ih]

lemma extractScan_str (s candRev rest : List Char) (d : Int) :
    extractScan candRev d false false (serializeStr s ++ rest) =
      extractScan ((serializeStr s).reverse ++ candRev) d false false rest := by
  have h1 : serializeStr s ++ rest =
      dquote :: (escapeChars s ++ (dquote :: rest)) := by
    simp [serializeStr]
  rw [h1]
  have hstep1 : extractScan candRev d false false
      (dquote :: (escapeChars s ++ (dquote :: rest))) =
      extractScan (dquote :: candRev) d true false
        (escapeChars s ++ (dquote :: rest)) := by
    simp [extractScan]
  rw [hstep1, extractScan_stringBody s (dquote :: candRev) (dquote :: rest) d]
  have hstep2 : extractScan ((escapeChars s).reverse ++ dquote :: candRev)
      d true false (dquote :: rest) =
      extractScan (dquote :: ((escapeChars s).reverse ++ dquote :: candRev))
        d false false rest := by
    simp +decide [extractScan]
  rw [hstep2]
  have hA : dquote :: ((escapeChars s).reverse ++ dquote :: candRev) =
      (serializeStr s).reverse ++ candRev := by
    simp [serializeStr]
  rw [hA]

mutual

theorem extractScan_val :
    ∀ (j : Json) (candRev rest : List Char) (d : Int), 1 ≤ d →
      extractScan candRev d false false (serializeJson j ++ rest) =
        extractScan ((serializeJson j).reverse ++ candRev) d false false rest
  | .null, candRev, rest, d, _ => by
    have h := extractScan_plain ("null".data) (by decide) candRev rest d
    simpa [serializeJson] using h
  | .bool true, candRev, rest, d, _ => by
    have h := extractScan_plain ("true".data) (by decide) candRev rest d
    simpa [serializeJson] using h
  | .bool false, candRev, rest, d, _ => by
    have h := extractScan_plain ("false".data) (by decide) candRev rest d
    simpa [serializeJson] using h
  | .num n, candRev, rest, d, _ => by
    have h := extractScan_plain (serializeInt n) (serializeInt_plain n)
      candRev rest d
    simpa [serializeJson] using h
  | .str s, candRev, rest, d, _ => by
    have h := extractScan_str s candRev rest d
    simpa [serializeJson] using h
  | .arr l, candRev, rest, d, hd => by
    have h1 : serializeJson (.arr l) ++ rest =
        '[' :: (serializeElems l ++ (']' :: rest)) := by
      simp [serializeJson]
    rw [h1]
    have hstep1 : extractScan candRev d false false
        ('[' :: (serializeElems l ++ (']' :: rest))) =
        extractScan ('[' :: candRev) d false false
          (serializeElems l ++ (']' :: rest)) := by
      simp +decide [extractScan]
    rw [hstep1, extractScan_elems l ('[' :: candRev) (']' :: rest) d hd]
    have hstep2 : extractScan ((serializeElems l).reverse ++ '[' :: candRev)
        d false false (']' :: rest) =
        extractScan (']' :: ((serializeElems l).reverse ++ '[' :: candRev))
          d false false rest := by
      simp +decide [extractScan]
    rw [hstep2]
    have hA : ']' :: ((serializeElems l).reverse ++ '[' :: candRev) =
        (serializeJson (.arr l)).reverse ++ candRev := by
      simp [serializeJson]
    rw [hA]
  | .obj f, candRev, rest, d, hd => by
    have h1 : serializeJson (.obj f) ++ rest =
        lbrace :: (serializeFields f ++ (rbrace :: rest)) := by
      simp [serializeJson]
    rw [h1]
    have hstep1 : extractScan candRev d false false
        (lbrace :: (serializeFields f ++ (rbrace :: rest))) =
        extractScan (lbrace :: candRev) (d + 1) false false
          (serializeFields f ++ (rbrace :: rest)) := by
      simp +decide [extractScan]
    rw [hstep1,
      extractScan_fields f (lbrace :: candRev) (rbrace :: rest) (d + 1)
        (by omega)]
    have hne : ¬(d = 0) := by omega
    have hstep2 : extractScan
        ((serializeFields f).reverse ++ lbrace :: candRev) (d + 1) false false
        (rbrace :: rest) =
        extractScan
          (rbrace :: ((serializeFields f).reverse ++ lbrace :: candRev))
          (d + 1 - 1) false false rest := by
      simp +decide [extractScan, hne]
    rw [hstep2]
    have hd1 : d + 1 - 1 = d := by omega
    rw [hd1]
    have hA : rbrace :: ((serializeFields f).reverse ++ lbrace :: candRev) =
        (serializeJson (.obj f)).reverse ++ candRev := by
      simp [serializeJson]
    rw [hA]

theorem extractScan_elems :
    ∀ (l : JsonList) (candRev rest : List Char) (d : Int), 1 ≤ d →
      extractScan candRev d false false (serializeElems l ++ rest) =
        extractScan ((serializeElems l).reverse ++ candRev) d false false rest
  | .nil, candRev, rest, d, _ => by simp [serializeElems]
  | .cons hd .nil, candRev, rest, d, h => by
    have hv := extractScan_val hd candRev rest d h
    simpa [serializeElems] using hv
  | .cons hd (.cons hd2 tl2), candRev, rest, d, h => by
    have h1 : serializeElems (.cons hd (.cons hd2 tl2)) ++ rest =
        serializeJson hd ++
          (',' :: (serializeElems (.cons hd2 tl2) ++ rest)) := by
      simp [serializeElems]
    rw [h1,
      extractScan_val hd candRev
        (',' :: (serializeElems (.cons hd2 tl2) ++ rest)) d h]
    have hstep : extractScan ((serializeJson hd).reverse ++ candRev) d false
        false (',' :: (serializeElems (.cons hd2 tl2) ++ rest)) =
        extractScan (',' :: ((serializeJson hd).reverse ++ candRev)) d false
          false (serializeElems (.cons hd2 tl2) ++ rest) := by
      simp +decide [extractScan]
    rw [hstep,
      extractScan_elems (.cons hd2 tl2)
        (',' :: ((serializeJson hd).reverse ++ candRev)) rest d h]
    have hA : (serializeElems (.cons hd2 tl2)).reverse ++
        (',' :: ((serializeJson hd).reverse ++ candRev)) =
        (serializeElems (.cons hd (.cons hd2 tl2))).reverse ++ candRev := by
      simp [serializeElems]
    rw [hA]

theorem extractScan_fields :
    ∀ (f : JsonFields) (candRev rest : List Char) (d : Int), 1 ≤ d →
      extractScan candRev d false false (serializeFields f ++ rest) =
        extractScan ((serializeFields f).reverse ++ candRev) d false false
          rest
  | .nil, candRev, rest, d, _ => by simp [serializeFields]
  | .cons k v .nil, candRev, rest, d, h => by
    have h1 : serializeFields (.cons k v .nil) ++ rest =
        serializeStr k ++ (':' :: (serializeJson v ++ rest)) := by
      simp [serializeFields]
    rw [h1, extractScan_str k candRev (':' :: (serializeJson v ++ rest)) d]
    have hstep : extractScan ((serializeStr k).reverse ++ candRev) d false
        false (':' :: (serializeJson v ++ rest)) =
        extractScan (':' :: ((serializeStr k).reverse ++ candRev)) d false
          false (serializeJson v ++ rest) := by
      simp +decide [extractScan]
    rw [hstep,
      extractScan_val v (':' :: ((serializeStr k).reverse ++ candRev)) rest
        d h]
    have hA : (serializeJson v).reverse ++
        (':' :: ((serializeStr k).reverse ++ candRev)) =
        (serializeFields (.cons k v .nil)).reverse ++ candRev := by
      simp [serializeFields]
    rw [hA]
  | .cons k v (.cons k2 v2 tl2), candRev, rest, d, h => by
    have h1 : serializeFields (.cons k v (.cons k2 v2 tl2)) ++ rest =
        serializeStr k ++ (':' :: (serializeJson v ++
          (',' :: (serializeFields (.cons k2 v2 tl2) ++ rest)))) := by
      simp [serializeFields]
    rw [h1,
      extractScan_str k candRev (':' :: (serializeJson v ++
        (',' :: (serializeFields (.cons k2 v2 tl2) ++ rest)))) d]
    have hstep1 : extractScan ((serializeStr k).reverse ++ candRev) d false
        false (':' :: (serializeJson v ++
          (',' :: (serializeFields (.cons k2 v2 tl2) ++ rest)))) =
        extractScan (':' :: ((serializeStr k).reverse ++ candRev)) d false
          false (serializeJson v ++
            (',' :: (serializeFields (.cons k2 v2 tl2) ++ rest))) := by
      simp +decide [extractScan]
    rw [hstep1,
      extractScan_val v (':' :: ((serializeStr k).reverse ++ candRev))
        (',' :: (serializeFields (.cons k2 v2 tl2) ++ rest)) d h]
    have hstep2 : extractScan ((serializeJson v).reverse ++
        (':' :: ((serializeStr k).reverse ++ candRev))) d false false
        (',' :: (serializeFields (.cons k2 v2 tl2) ++ rest)) =
        extractScan (',' :: ((serializeJson v).reverse ++
          (':' :: ((serializeStr k).reverse ++ candRev)))) d false false
          (serializeFields (.cons k2 v2 tl2) ++ rest) := by
      simp +decide [extractScan]
    rw [hstep2,
      extractScan_fields (.cons k2 v2 tl2)
        (',' :: ((serializeJson v).reverse ++
          (':' :: ((serializeStr k).reverse ++ candRev)))) rest d h]
    have hA : (serializeFields (.cons k2 v2 tl2)).reverse ++
        (',' :: ((serializeJson v).reverse ++
          (':' :: ((serializeStr k).reverse ++ candRev)))) =
        (serializeFields (.cons k v (.cons k2 v2 tl2))).reverse ++
          candRev := by
      simp [serializeFields]
    rw [hA]

end

lemma extractScan_whole (f : JsonFields) :
    extractScan [] 0 false false (serializeJson (Json.obj f)) =
      .found (Json.obj f) [] := by
  have h1 : serializeJson (Json.obj f) =
      lbrace :: (serializeFields f ++ (rbrace :: [])) := by
    simp [serializeJson]
  rw [h1]
  have hstep1 : extractScan [] (0 : Int) false false
      (lbrace :: (serializeFields f ++ (rbrace :: []))) =
      extractScan [lbrace] (0 + 1) false false
        (serializeFields f ++ (rbrace :: [])) := by
    simp +decide [extractScan]
  rw [hstep1, extractScan_fields f [lbrace] (rbrace :: []) (0 + 1) (by omega)]
  have hj : jsonParse (lbrace :: (serializeFields f ++ [rbrace])) =
      some (Json.obj f) := by
    have h2 : lbrace :: (serializeFields f ++ [rbrace]) =
        serializeJson (Json.obj f) := by
      simp [serializeJson]
    rw [h2]
    exact jsonParse_serialize _
  simp +decide [extractScan, hj]

lemma extractJsonBlocksGo_nil (fuel : Nat) :
    extractJsonBlocksGo fuel [] = [] := by
  cases fuel <;> simp [extractJsonBlocksGo]

theorem extractJsonBlocks_serializeObj (f : JsonFields) :
    extractJsonBlocks (serializeJson (Json.obj f)) = [Json.obj f] := by
  unfold extractJsonBlocks
  have h1 : serializeJson (Json.obj f) =
      lbrace :: (serializeFields f ++ [rbrace]) := by
    simp [serializeJson]
  have hscan : extractScan [] 0 false false
      (lbrace :: (serializeFields f ++ [rbrace])) =
      .found (Json.obj f) [] := by
    rw [← h1]
    exact extractScan_whole f
  rw [h1]
  simp +decide [extractJsonBlocksGo, hscan, extractJsonBlocksGo_nil]

lemma getLast?_append_getD (l1 l2 : List (List Char)) (d : List Char) :
    (l1 ++ l2).getLast?.getD d = l2.getLast?.getD (l1.getLast?.getD d) := by
  cases h : l2.getLast? with
  | none =>
    have h2 : l2 = [] := by
      cases l2 with
      | nil => rfl
      | cons a t => simp [List.getLast?_concat] at h
    subst h2
    simp
  | some x =>
    have hne : l2 ≠ [] := by rintro rfl; simp at h
    rw [List.getLast?_append_of_ne_nil _ hne, h]
    simp [h]

lemma mergeStep_spec (acc : MergeAcc) (b : Json) :
    mergeStep acc b =
      ⟨acc.actions ++ actionStrings [b],
       acc.shapes ++ shapesConcat [b],
       (lastStrMessage [b]).getD acc.lastMessage⟩ := by
  unfold mergeStep actionStrings shapesConcat lastStrMessage
  simp only [List.filterMap_cons, List.filterMap_nil, List.flatMap_cons,
    List.flatMap_nil, List.append_nil]
  generalize getField b ("action".data) = oa
  generalize getField b ("shapes".data) = os
  generalize getField b ("message".data) = om
  rcases oa with _ | ja <;> rcases os with _ | js <;> rcases om with _ | jm
  all_goals try cases ja
  all_goals try cases js
  all_goals try cases jm
  all_goals simp

lemma actionStrings_append (l1 l2 : List Json) :
    actionStrings (l1 ++ l2) = actionStrings l1 ++ actionStrings l2 := by
  simp [actionStrings]

lemma shapesConcat_append (l1 l2 : List Json) :
    shapesConcat (l1 ++ l2) = shapesConcat l1 ++ shapesConcat l2 := by
  simp [shapesConcat]

lemma lastStrMessage_append_getD (l1 l2 : List Json) (d : List Char) :
    (lastStrMessage (l1 ++ l2)).getD d =
      (lastStrMessage l2).getD ((lastStrMessage l1).getD d) := by
  unfold lastStrMessage
  rw [List.filterMap_append, getLast?_append_getD]

lemma foldl_mergeStep :
    ∀ (blocks : List Json) (acc : MergeAcc),
      blocks.foldl mergeStep acc =
        ⟨acc.actions ++ actionStrings blocks,
         acc.shapes ++ shapesConcat blocks,
         (lastStrMessage blocks).getD acc.lastMessage⟩
  | [], acc => by simp [actionStrings, shapesConcat, lastStrMessage]
  | b :: tl, acc => by
    have ih := foldl_mergeStep tl (mergeStep acc b)
    rw [List.foldl_cons, ih, mergeStep_spec]
    have ha : actionStrings (b :: tl) =
        actionStrings [b] ++ actionStrings tl := by
      rw [show b :: tl = [b] ++ tl from rfl, actionStrings_append]
    have hs : shapesConcat (b :: tl) =
        shapesConcat [b] ++ shapesConcat tl := by
      rw [show b :: tl = [b] ++ tl from rfl, shapesConcat_append]
    have hm : (lastStrMessage (b :: tl)).getD acc.lastMessage =
        (lastStrMessage tl).getD
          ((lastStrMessage [b]).getD acc.lastMessage) := by
      rw [show b :: tl = [b] ++ tl from rfl, lastStrMessage_append_getD]
    simp [ha, hs, hm]

/-- Counterexample to claim C4's message clause: for `rawC4` (two
concatenated objects whose messages are `"hello"` and `""`), the merged
message is the default `"Command processed"`, not the last non-empty
message `"hello"`: the merge loop overwrites the held message with any
string-typed `message`, including the empty string, and the final
`||`-default then replaces the empty result. -/
theorem merge_message_C4_counterexample :
    jsonParse rawC4 = none ∧
    (extractJsonBlocks (sanitizeAiResponse rawC4)).length = 2 ∧
    (interpretResponse rawC4 .canvas).action = ("clear|draw".data) ∧
    specLastNonEmptyMessage (extractJsonBlocks (sanitizeAiResponse rawC4)) =
      some ("hello".data) ∧
    (interpretResponse rawC4 .canvas).message =
      ("Command processed".data) := by
  decide

/-- Claim C4 (amended): when the response does not parse directly and the
sanitizer extracts two or more JSON blocks, the merged interpretation's
action is the blocks' string `action` fields joined with `"|"` in
extraction order (context default if none), its shapes are the
concatenation of the blocks' `shapes` arrays in order, and its message is
the last string-typed `message` among the blocks — `"Command processed"`
when that last string is empty or no block has a string `message`. -/
theorem merge_interpretation_C4 (raw : List Char) (appType : AppType)
    (blocks : List Json)
    (hdirect : jsonParse raw = none)
    (hblocks : extractJsonBlocks (sanitizeAiResponse raw) = blocks)
    (hlen : 2 ≤ blocks.length) :
    (interpretResponse raw appType).action =
      (if 0 < (actionStrings blocks).length
       then joinBar (actionStrings blocks)
       else mergeDefaultAction appType) ∧
    (interpretResponse raw appType).shapes = shapesConcat blocks ∧
    (interpretResponse raw appType).message =
      (if (lastStrMessage blocks).getD [] = []
       then "Command processed".data
       else (lastStrMessage blocks).getD []) := by
  have hpos : 0 < blocks.length := by omega
  simp only [interpretResponse, hdirect, hblocks]
  rw [foldl_mergeStep]
  simp [hpos]

/-- Witness for the amended claim C4 at the concrete input `rawC4`. -/
theorem merge_interpretation_C4_witness :
    jsonParse rawC4 = none ∧
    2 ≤ (extractJsonBlocks (sanitizeAiResponse rawC4)).length ∧
    (interpretResponse rawC4 .canvas).action =
      (if 0 < (actionStrings
          (extractJsonBlocks (sanitizeAiResponse rawC4))).length
       then joinBar (actionStrings
          (extractJsonBlocks (sanitizeAiResponse rawC4)))
       else mergeDefaultAction .canvas) :=
  ⟨by decide, by decide,
   (merge_interpretation_C4 rawC4 .canvas _ (by decide) rfl (by decide)).1⟩

/-- Counterexample to claim C7: for `rawC7cex`, block extraction yields
zero objects, yet the interpretation is not the degraded fallback: the
`findFirstJsonObject` rescue finds the inner balanced object, so the
message is `"hi"` (not the raw text) and `error` is not set. -/
theorem no_json_fallback_C7_counterexample :
    jsonParse rawC7cex = none ∧
    extractJsonBlocks (sanitizeAiResponse rawC7cex) = [] ∧
    (interpretResponse rawC7cex .canvas).message = ("hi".data) ∧
    (interpretResponse rawC7cex .canvas).message ≠ rawC7cex ∧
    (interpretResponse rawC7cex .canvas).error = none := by
  decide

/-- Claim C7 (amended): when the response does not parse directly, block
extraction yields zero objects, and the last-resort first-balanced-object
rescue also fails to produce a parseable block, the interpreter returns
the degraded fallback: the whole raw text as the message, the context
default action (`"draw"` for canvas), and `error` set — and, the model
being a total function, it never throws. -/
theorem no_json_fallback_C7 (raw : List Char) (appType : AppType)
    (hdirect : jsonParse raw = none)
    (hblocks : extractJsonBlocks (sanitizeAiResponse raw) = [])
    (hfirst : ∀ first,
      findFirstJsonObject (sanitizeAiResponse raw) = some first →
      jsonParse first = none) :
    interpretResponse raw appType = fallbackInterp raw appType := by
  simp only [interpretResponse, hdirect, hblocks]
  cases hf : findFirstJsonObject (sanitizeAiResponse raw) with
  | none => simp [hf]
  | some first => simp [hf, hfirst first hf]

/-- Witness for the amended claim C7 at the concrete input `rawC7w`. -/
theorem no_json_fallback_C7_witness :
    jsonParse rawC7w = none ∧
    extractJsonBlocks (sanitizeAiResponse rawC7w) = [] ∧
    interpretResponse rawC7w .canvas = fallbackInterp rawC7w .canvas :=
  ⟨by decide, by decide,
   no_json_fallback_C7 rawC7w .canvas (by decide) (by decide)
     (fun first h => by
       rw [show findFirstJsonObject (sanitizeAiResponse rawC7w) = none from
         by decide] at h
       cases h)⟩

/-- Counterexample to claim C8: `rawBadC8` is a bare well-formed JSON
object (its direct parse is `objBadC8`), yet the sanitizer's trailing
comma regex, not being string-aware, rewrites the `, \x7d` inside its
`message` string, so extraction does not yield the object unchanged. -/
theorem sanitize_roundtrip_C8_counterexample :
    jsonParse rawBadC8 = some objBadC8 ∧
    extractJsonBlocks (sanitizeAiResponse rawBadC8) ≠ [objBadC8] := by
  decide

/-- Claim C8 (amended): whenever sanitization leaves a response equal to
the exact serialization of a JSON object — in particular the sanitizer
only strips fences, comments and trailing commas, so a fence-wrapped
object without `,\x7d`-like sequences inside its strings sanitizes to the
bare object — extraction yields exactly that object, fields and string
contents unchanged. -/
theorem sanitize_roundtrip_C8 (raw : List Char) (f : JsonFields)
    (h : sanitizeAiResponse raw = serializeJson (Json.obj f)) :
    extractJsonBlocks (sanitizeAiResponse raw) = [Json.obj f] := by
  rw [h]
  exact extractJsonBlocks_serializeObj f

/-- Witness for the amended claim C8 at the concrete fence-wrapped input
`rawC8w`. -/
theorem sanitize_roundtrip_C8_witness :
    sanitizeAiResponse rawC8w = serializeJson (Json.obj fC8w) ∧
    extractJsonBlocks (sanitizeAiResponse rawC8w) = [Json.obj fC8w] := by
  have hser : serializeJson (Json.obj fC8w) =
      ("\x7b\"action\":\"draw\",\"message\":\"ok\"\x7d").data := by
    simp +decide [fC8w, serializeJson, serializeFields, serializeStr,
      escapeChars, escapeChar, dquote, lbrace, rbrace]
  have h : sanitizeAiResponse rawC8w = serializeJson (Json.obj fC8w) := by
    rw [hser]
    decide
  exact ⟨h, sanitize_roundtrip_C8 rawC8w fC8w h⟩

end Groq
